import Mathlib

/-!
Verification of the Git-push polling plugin: change-detection cache,
provider adapters, group expansion, pagination and the check-and-push
cycle, shallowly embedded from the Python sources
(`main.py`, `utils/storage.py`, `utils/config.py`, `providers/*.py`).

Conventions of the embedding:
* Python dicts become insertion-ordered association lists with
  `dictGet` / `dictSet` / `dictHas` mirroring `d.get` / `d[k] = v` / `k in d`.
* JSON values become the inductive `JVal`; Python truthiness becomes `truthy`.
* JSON string fields read through `.get` are taken via `jStrOr`, which
  yields the given default when the field is missing or not a string.
* HTTP fetches (`_fetch_json`, per-page GETs) become oracle parameters
  (`Option JVal`, `Nat → Option JVal`); `none` models a 404, a non-200
  status or a transport error, exactly the cases `_fetch_json` maps to
  `None`.
* `datetime.fromisoformat` + `strftime` inside `_parse_datetime` becomes
  the oracle `iso : String → Option String` (`none` models the raised
  `ValueError` that the `except` clause swallows).
* String scanning helpers (`strStarts`, `strEnds`, `strContainsSub`,
  `strLower`, `firstLine`, `strTake`) implement Python's `startswith`,
  `endswith`, `in`, `lower`, `split("\n")[0]` and slicing over the
  character list, code point by code point.
-/

/-- Lookup in an insertion-ordered association list, like Python `d.get(k)`. -/
def dictGet {α : Type} : List (String × α) → String → Option α
  | [], _ => none
  | (k', v) :: rest, k => if k' = k then some v else dictGet rest k

/-- Update/insert in an association list, like Python `d[k] = v`
(an existing key keeps its position, a new key is appended). -/
def dictSet {α : Type} : List (String × α) → String → α → List (String × α)
  | [], k, v => [(k, v)]
  | (k', v') :: rest, k, v =>
      if k' = k then (k', v) :: rest else (k', v') :: dictSet rest k v

/-- Key membership, like Python `k in d`. -/
def dictHas {α : Type} (d : List (String × α)) (k : String) : Bool :=
  (dictGet d k).isSome

/-- JSON values as decoded by `resp.json()`. -/
inductive JVal where
  | jnull
  | jbool (b : Bool)
  | jnum (n : Int)
  | jstr (s : String)
  | jarr (elems : List JVal)
  | jobj (fields : List (String × JVal))

/-- Python truthiness of a JSON value (`if not data: ...`). -/
def truthy : JVal → Bool
  | .jnull => false
  | .jbool b => b
  | .jnum n => n != 0
  | .jstr s => !s.isEmpty
  | .jarr xs => !xs.isEmpty
  | .jobj fs => !fs.isEmpty

/-- Whether the value is a JSON object (`isinstance(data, dict)` side of shapes). -/
def JVal.isObj : JVal → Bool
  | .jobj _ => true
  | _ => false

/-- Whether the value is a JSON array (`isinstance(data, list)`). -/
def JVal.isArr : JVal → Bool
  | .jarr _ => true
  | _ => false

/-- Field access on an object, `d.get(k)`; `none` on missing key or non-object. -/
def jget : JVal → String → Option JVal
  | .jobj fs, k => dictGet fs k
  | _, _ => none

/-- `d.get(k, default)`. -/
def jgetD (v : JVal) (k : String) (d : JVal) : JVal :=
  (jget v k).getD d

/-- `k in d` for an object. -/
def jHasKey (v : JVal) (k : String) : Bool :=
  (jget v k).isSome

/-- Set a field of an object, `d[k] = x` (non-objects are left unchanged;
Python would raise there, and the theorems confine themselves to object
values, which is the only shape the store ever holds). -/
def jset (v : JVal) (k : String) (x : JVal) : JVal :=
  match v with
  | .jobj fs => .jobj (dictSet fs k x)
  | other => other

/-- Read a string field with a default: Python `d.get(k, default)` for the
string-typed fields of the provider payloads. -/
def jStrOr (v : Option JVal) (d : String) : String :=
  match v with
  | some (.jstr s) => s
  | _ => d

/-- Python `==` between a `str` and an optional JSON value
(`commit.sha == cached_sha`): true exactly when the value is that string. -/
def jEqStr (v : Option JVal) (s : String) : Bool :=
  match v with
  | some (.jstr t) => s == t
  | _ => false

/-- `s.startswith(pre)`, code point by code point. -/
def strStarts (s pre : String) : Bool := pre.data.isPrefixOf s.data

/-- `s.endswith(suf)`, code point by code point. -/
def strEnds (s suf : String) : Bool := suf.data.isSuffixOf s.data

/-- Occurrence of one character list inside another. -/
def hasSub : List Char → List Char → Bool
  | _, [] => false
  | n, c :: t => n.isPrefixOf (c :: t) || hasSub n t

/-- Python `needle in hay` on strings (an empty needle always matches). -/
def strContainsSub (hay needle : String) : Bool :=
  needle.data.isEmpty || hasSub needle.data hay.data

/-- `s.lower()`. -/
def strLower (s : String) : String := ⟨s.data.map Char.toLower⟩

/-- `s.split("\n")[0]`. -/
def firstLine (s : String) : String := ⟨s.data.takeWhile (fun c => c != '\n')⟩

/-- `s[:n]` on code points. -/
def strTake (s : String) (n : Nat) : String := ⟨s.data.take n⟩

/-- One replacement step list for `str.replace`: replace every occurrence of
`pat` (nonempty) in `s` by `rep`. -/
def replaceList (pat rep : List Char) : List Char → List Char
  | [] => []
  | c :: rest =>
      if h : pat ≠ [] ∧ pat.isPrefixOf (c :: rest) then
        rep ++ replaceList pat rep ((c :: rest).drop pat.length)
      else
        c :: replaceList pat rep rest
  termination_by s => s.length
  decreasing_by
    · simp only [List.length_drop, List.length_cons]
      have hlen : 0 < pat.length := List.length_pos.mpr h.1
      omega
    · simp

/-- `s.replace(pat, rep)` (the empty pattern is never used by the source). -/
def strReplace (s pat rep : String) : String :=
  if pat.data = [] then s else ⟨replaceList pat.data rep.data s.data⟩

/-- `BaseGitProvider._parse_datetime`: empty dates render as 未知, ISO-looking
dates are reformatted through the `iso` oracle (the
`fromisoformat`/`strftime` pair; `none` models the swallowed exception, after
which the already-rewritten string is returned), anything else passes through. -/
def parse_datetime (iso : String → Option String) (dateStr : String) : String :=
  if dateStr = "" then "未知"
  else if strContainsSub dateStr "T" then
    let replaced := strReplace dateStr "Z" "+00:00"
    match iso replaced with
    | some out => out
    | none => replaced
  else dateStr

/-- Truthiness of an optional string (`if self.url:`, `if provider:`). -/
def optStrTruthy : Option String → Bool
  | none => false
  | some s => !s.isEmpty

/-- `CommitInfo` from `providers/base.py`. -/
structure CommitInfo where
  sha : String
  message : String
  author : String
  date : String
  branch : String
  repo : String
  provider : String
  url : Option String := none
deriving DecidableEq

/-- `CommitInfo.to_push_message`. -/
def CommitInfo.to_push_message (c : CommitInfo) : String :=
  let text := "📦 【" ++ c.provider ++ "】" ++ c.repo ++ "\n"
  let text := text ++ "🌿 分支: " ++ c.branch ++ "\n"
  let text := text ++ "📝 提交: " ++ strTake c.sha 7 ++ "\n"
  let text := text ++ "👤 作者: " ++ c.author ++ "\n"
  let text := text ++ "⏰ 时间: " ++ c.date ++ "\n"
  let text := text ++ "💬 信息: " ++ c.message
  match c.url with
  | some u => if !u.isEmpty then text ++ "\n🔗 链接: " ++ u else text
  | none => text

/-- `ReleaseInfo` from `providers/base.py`. -/
structure ReleaseInfo where
  tag : String
  name : String
  body : String
  author : String
  date : String
  repo : String
  provider : String
  url : Option String := none
deriving DecidableEq

/-- `ReleaseInfo.to_push_message`. -/
def ReleaseInfo.to_push_message (r : ReleaseInfo) : String :=
  let text := "🚀 【" ++ r.provider ++ "】" ++ r.repo ++ "\n"
  let text := text ++ "🏷️ 版本: " ++ r.tag ++ "\n"
  let text := if !r.name.isEmpty && r.name != r.tag then
      text ++ "📋 名称: " ++ r.name ++ "\n" else text
  let text := if !r.author.isEmpty then
      text ++ "👤 发布者: " ++ r.author ++ "\n" else text
  let text := text ++ "⏰ 时间: " ++ r.date ++ "\n"
  let text := text ++ "📄 说明: " ++ strTake r.body 200
  match r.url with
  | some u => if !u.isEmpty then text ++ "\n🔗 链接: " ++ u else text
  | none => text

/-- `RepoInfo` from `providers/base.py` (used during group expansion). -/
structure RepoInfo where
  name : String
  repo_name : String
  default_branch : String
  description : String := ""
  url : String := ""
deriving DecidableEq

/-- `RepoWatchConfig` from `utils/config.py`. -/
structure RepoWatchConfig where
  provider : String
  repo : String
  branch : String := ""
  watch_type : String := "commits"
  note : String := ""
deriving DecidableEq

/-- `RepoWatchConfig.get_cache_key`. -/
def RepoWatchConfig.get_cache_key (c : RepoWatchConfig) : String :=
  c.provider ++ ":" ++ c.repo ++ ":" ++ c.branch ++ ":" ++ c.watch_type

/-- `GroupWatchConfig` from `utils/config.py`. -/
structure GroupWatchConfig where
  provider : String
  group : String
  watch_type : String := "commits"
  include_repos : List String := []
  exclude_repos : List String := []
  branch : String := ""
  note : String := ""
deriving DecidableEq

/-- `GroupWatchConfig.should_watch_repo`: the exclude list is consulted
first and is absolute; a nonempty include list then restricts to its
members. -/
def GroupWatchConfig.should_watch_repo (g : GroupWatchConfig) (repoName : String) : Bool :=
  if g.exclude_repos.contains repoName then false
  else if !g.include_repos.isEmpty && !g.include_repos.contains repoName then false
  else true

/-- The `RepoWatchConfig` built for one repo inside
`GitPushPlugin._expand_group_configs` (`branch=group.branch or
repo_info.default_branch`). -/
def mkGroupRepoConfig (g : GroupWatchConfig) (ri : RepoInfo) : RepoWatchConfig :=
  { provider := g.provider
    repo := ri.name
    branch := if !g.branch.isEmpty then g.branch else ri.default_branch
    watch_type := g.watch_type
    note := g.note }

/-- The per-group loop body of `GitPushPlugin._expand_group_configs`:
filter each listed repo through `should_watch_repo` and insert the built
config into the expanded map keyed by its cache key. -/
def expandGroup (g : GroupWatchConfig) : List RepoInfo →
    List (String × RepoWatchConfig) → List (String × RepoWatchConfig)
  | [], acc => acc
  | ri :: rest, acc =>
      if g.should_watch_repo ri.repo_name then
        let cfg := mkGroupRepoConfig g ri
        expandGroup g rest (dictSet acc cfg.get_cache_key cfg)
      else
        expandGroup g rest acc

/-- `UpdateCache` state from `utils/storage.py`: the JSON store `_cache`
and the in-memory group→repo-set map `_repo_cache`. -/
structure UpdateCache where
  cache : List (String × JVal)
  repoCache : List (String × List String)

/-- The `_group_repos` value `_save` writes: `{k: list(v) for k, v in ...}`. -/
def encodeGroupRepos (rc : List (String × List String)) : JVal :=
  .jobj (rc.map (fun p => (p.1, .jarr (p.2.map .jstr))))

/-- `UpdateCache._save`: stores the group map under the reserved
`_group_repos` key and rewrites the whole backing file (the persisted
store is exactly the resulting `cache` field). -/
def saveCache (c : UpdateCache) : UpdateCache :=
  { c with cache := dictSet c.cache "_group_repos" (encodeGroupRepos c.repoCache) }

/-- `UpdateCache._get_commit_key`. -/
def getCommitKey (provider repo branch : String) : String :=
  "commit:" ++ provider ++ ":" ++ repo ++ ":" ++ branch

/-- `UpdateCache._get_release_key`. -/
def getReleaseKey (provider repo : String) : String :=
  "release:" ++ provider ++ ":" ++ repo

/-- `UpdateCache.get_cached_commit_sha`: `self._cache.get(key, {}).get("sha")`. -/
def get_cached_commit_sha (c : UpdateCache) (provider repo branch : String) : Option JVal :=
  jget ((dictGet c.cache (getCommitKey provider repo branch)).getD (.jobj [])) "sha"

/-- `UpdateCache.set_cached_commit_sha` followed by its `_save`. -/
def set_cached_commit_sha (c : UpdateCache) (provider repo branch sha : String) : UpdateCache :=
  let key := getCommitKey provider repo branch
  let v := (dictGet c.cache key).getD (.jobj [])
  saveCache { c with cache := dictSet c.cache key (jset v "sha" (.jstr sha)) }

/-- `UpdateCache.is_first_commit_check`: `key not in self._cache`. -/
def is_first_commit_check (c : UpdateCache) (provider repo branch : String) : Bool :=
  !dictHas c.cache (getCommitKey provider repo branch)

/-- `UpdateCache.get_cached_release_tag`. -/
def get_cached_release_tag (c : UpdateCache) (provider repo : String) : Option JVal :=
  jget ((dictGet c.cache (getReleaseKey provider repo)).getD (.jobj [])) "tag"

/-- `UpdateCache.set_cached_release_tag` followed by its `_save`. -/
def set_cached_release_tag (c : UpdateCache) (provider repo tag : String) : UpdateCache :=
  let key := getReleaseKey provider repo
  let v := (dictGet c.cache key).getD (.jobj [])
  saveCache { c with cache := dictSet c.cache key (jset v "tag" (.jstr tag)) }

/-- `UpdateCache.is_first_release_check`. -/
def is_first_release_check (c : UpdateCache) (provider repo : String) : Bool :=
  !dictHas c.cache (getReleaseKey provider repo)

/-- `UpdateCache.set_group_cached_repos` followed by its `_save`. -/
def set_group_cached_repos (c : UpdateCache) (provider group : String)
    (repos : List String) : UpdateCache :=
  saveCache { c with repoCache := dictSet c.repoCache (provider ++ ":" ++ group) repos }

/-- `UpdateCache.clear_cache(provider, repo)`; `none` stands for the Python
default `None`, and string truthiness is respected (`if provider and repo`).
The provider-only arm keeps Python's operator precedence:
`(not k.startswith("_") and k.endswith(":p")) or (":p:" in k)`. -/
def clear_cache (c : UpdateCache) (provider repo : Option String) : UpdateCache :=
  if optStrTruthy provider && optStrTruthy repo then
    let p := provider.getD ""
    let r := repo.getD ""
    let kept := c.cache.filter
      (fun e => !(!strStarts e.1 "_" && strContainsSub e.1 (p ++ ":" ++ r)))
    saveCache { c with cache := kept }
  else if optStrTruthy provider then
    let p := provider.getD ""
    let kept := c.cache.filter (fun e =>
      !((!strStarts e.1 "_" && strEnds e.1 (":" ++ p)) || strContainsSub e.1 (":" ++ p ++ ":")))
    saveCache { c with cache := kept }
  else
    let kept := c.cache.filter (fun e => strStarts e.1 "_")
    saveCache { cache := kept, repoCache := [] }

/-- Python `value or {}` on a JSON value (`data.get("author", {}) or {}`). -/
def jTruthyOrEmpty (v : JVal) : JVal :=
  if truthy v then v else .jobj []

/-- Python `d.get(k) or fallback` for a string field: the field's string
value when present and nonempty, the fallback otherwise. -/
def jStrTruthyOr (v : Option JVal) (fb : String) : String :=
  match v with
  | some (.jstr s) => if s.isEmpty then fb else s
  | _ => fb

/-- `GitHubProvider.get_default_branch` on the fetched repo metadata. -/
def githubGetDefaultBranch (meta : Option JVal) : String :=
  match meta with
  | some v =>
      if truthy v && jHasKey v "default_branch" then
        jStrOr (jget v "default_branch") "main"
      else "main"
  | none => "main"

/-- The `CommitInfo` `GitHubProvider.get_latest_commit` builds from a
response object that passed the `"sha" in data` guard. -/
def githubCommitFrom (iso : String → Option String) (repo branch : String)
    (d : JVal) : CommitInfo :=
  let commit := jgetD d "commit" (.jobj [])
  let authorInfo := jTruthyOrEmpty (jgetD d "author" (.jobj []))
  let sha := jStrOr (jget d "sha") ""
  { sha := sha
    message := firstLine (jStrOr (jget commit "message") "")
    author := jStrTruthyOr (jget authorInfo "login")
      (jStrOr (jget (jgetD commit "author" (.jobj [])) "name") "Unknown")
    date := parse_datetime iso (jStrOr (jget (jgetD commit "author" (.jobj [])) "date") "")
    branch := branch
    repo := repo
    provider := "GitHub"
    url := some ("https://github.com/" ++ repo ++ "/commit/" ++ sha) }

/-- `GitHubProvider.get_latest_commit`: branch resolution through the repo
metadata fetch, then the commit endpoint fetch, guarded by
`not data or "sha" not in data`. -/
def githubGetLatestCommit (iso : String → Option String) (meta data : Option JVal)
    (repo branch : String) : Option CommitInfo :=
  let branch := if branch.isEmpty then githubGetDefaultBranch meta else branch
  match data with
  | none => none
  | some d =>
      if !truthy d || !jHasKey d "sha" then none
      else some (githubCommitFrom iso repo branch d)

/-- `GitHubProvider.get_latest_release`, guarded by
`not data or "tag_name" not in data`. -/
def githubGetLatestRelease (iso : String → Option String) (data : Option JVal)
    (repo : String) : Option ReleaseInfo :=
  match data with
  | none => none
  | some d =>
      if !truthy d || !jHasKey d "tag_name" then none
      else
        let authorInfo := jTruthyOrEmpty (jgetD d "author" (.jobj []))
        let rawBody := jStrOr (jget d "body") ""
        let body := if !rawBody.isEmpty then strTake (firstLine rawBody) 200 else rawBody
        some
          { tag := jStrOr (jget d "tag_name") ""
            name := jStrOr (jget d "name") ""
            body := if body.isEmpty then "无更新说明" else body
            author := jStrOr (jget authorInfo "login") "Unknown"
            date := parse_datetime iso (jStrOr (jget d "published_at") "")
            repo := repo
            provider := "GitHub"
            url := some (jStrOr (jget d "html_url")
              ("https://github.com/" ++ repo ++ "/releases/tag/" ++
                jStrOr (jget d "tag_name") "")) }

/-- `GitLabProvider.get_default_branch` on the fetched project metadata. -/
def gitlabGetDefaultBranch (meta : Option JVal) : String :=
  match meta with
  | some v =>
      if truthy v && jHasKey v "default_branch" then
        jStrOr (jget v "default_branch") "main"
      else "main"
  | none => "main"

/-- The `CommitInfo` `GitLabProvider.get_latest_commit` builds from the
first element of the commit list. -/
def gitlabCommitFrom (iso : String → Option String) (baseUrl repo branch : String)
    (c0 : JVal) : CommitInfo :=
  { sha := jStrOr (jget c0 "id") ""
    message := firstLine (jStrOr (jget c0 "message") "")
    author := jStrOr (jget c0 "author_name") "Unknown"
    date := parse_datetime iso (jStrOr (jget c0 "committed_date") "")
    branch := branch
    repo := repo
    provider := "GitLab"
    url := some (baseUrl ++ "/" ++ repo ++ "/-/commit/" ++ jStrOr (jget c0 "id") "") }

/-- `GitLabProvider.get_latest_commit`: resolves the branch, then guards
`not data or not isinstance(data, list) or len(data) == 0` and takes the
first list element. -/
def gitlabGetLatestCommit (iso : String → Option String) (baseUrl : String)
    (meta data : Option JVal) (repo branch : String) : Option CommitInfo :=
  let branch := if branch.isEmpty then gitlabGetDefaultBranch meta else branch
  match data with
  | none => none
  | some d =>
      match d with
      | .jarr (c0 :: _) =>
          if !truthy d then none else some (gitlabCommitFrom iso baseUrl repo branch c0)
      | _ => none

/-- The draft-skipping loop of `GitLabProvider.get_latest_release`
(`for r in data: if not r.get("draft", False): release = r; break`). -/
def firstNonDraft : List JVal → Option JVal
  | [] => none
  | r :: rest =>
      if truthy (jgetD r "draft" (.jbool false)) then firstNonDraft rest
      else some r

/-- The `ReleaseInfo` `GitLabProvider.get_latest_release` builds from the
selected release entry. -/
def gitlabReleaseFrom (iso : String → Option String) (baseUrl repo : String)
    (r : JVal) : ReleaseInfo :=
  let rawBody := jStrOr (jget r "description") ""
  let body := if !rawBody.isEmpty then strTake (firstLine rawBody) 200 else rawBody
  let authorInfo := jTruthyOrEmpty (jgetD r "author" (.jobj []))
  { tag := jStrOr (jget r "tag_name") ""
    name := jStrOr (jget r "name") (jStrOr (jget r "tag_name") "")
    body := if body.isEmpty then "无更新说明" else body
    author := jStrOr (jget authorInfo "username") "Unknown"
    date := parse_datetime iso (jStrOr (jget r "released_at") "")
    repo := repo
    provider := "GitLab"
    url := some (jStrTruthyOr (jget (jgetD r "_links" (.jobj [])) "self")
      (baseUrl ++ "/" ++ repo ++ "/-/releases/" ++ jStrOr (jget r "tag_name") "")) }

/-- `GitLabProvider.get_latest_release`: guards the list shape, skips draft
entries, and falls back to `data[0]` when the selected entry is falsy or
no entry was selected (`if not release: release = data[0]`). -/
def gitlabGetLatestRelease (iso : String → Option String) (baseUrl : String)
    (data : Option JVal) (repo : String) : Option ReleaseInfo :=
  match data with
  | none => none
  | some d =>
      match d with
      | .jarr (x0 :: rest) =>
          if !truthy d then none
          else
            let sel := match firstNonDraft (x0 :: rest) with
              | some r => if truthy r then r else x0
              | none => x0
            some (gitlabReleaseFrom iso baseUrl repo sel)
      | _ => none

/-- `CNBProvider.get_default_branch` on the fetched `git/head` data. -/
def cnbGetDefaultBranch (meta : Option JVal) : String :=
  match meta with
  | some v =>
      if truthy v && jHasKey v "name" then jStrOr (jget v "name") "main"
      else "main"
  | none => "main"

/-- The `CommitInfo` `CNBProvider.get_latest_commit` builds from the
selected commit value. -/
def cnbCommitFrom (iso : String → Option String) (repo branch : String)
    (c0 : JVal) : CommitInfo :=
  let sha := jStrOr (jget c0 "sha") (jStrOr (jget c0 "id") "")
  { sha := sha
    message := firstLine (jStrOr (jget c0 "message") "")
    author := jStrOr (jget (jgetD c0 "author" (.jobj [])) "name")
      (jStrOr (jget c0 "author_name") "Unknown")
    date := parse_datetime iso
      (jStrOr (jget c0 "committed_date") (jStrOr (jget c0 "created_at") ""))
    branch := branch
    repo := repo
    provider := "CNB"
    url := some ("https://cnb.cool/" ++ repo ++ "/-/commit/" ++ sha) }

/-- `CNBProvider.get_latest_commit`: `if not data: return None`, then the
first element when the response is a list, the response itself otherwise. -/
def cnbGetLatestCommit (iso : String → Option String) (meta data : Option JVal)
    (repo branch : String) : Option CommitInfo :=
  let branch := if branch.isEmpty then cnbGetDefaultBranch meta else branch
  match data with
  | none => none
  | some d =>
      if !truthy d then none
      else
        match d with
        | .jarr [] => none
        | .jarr (c0 :: _) => some (cnbCommitFrom iso repo branch c0)
        | other => some (cnbCommitFrom iso repo branch other)

/-- The `ReleaseInfo` `CNBProvider.get_latest_release` builds from the
selected release value (no draft filtering of any kind). -/
def cnbReleaseFrom (iso : String → Option String) (repo : String)
    (r : JVal) : ReleaseInfo :=
  let tag := jStrOr (jget r "tag_name") (jStrOr (jget r "tag") "")
  let rawBody := jStrOr (jget r "body") (jStrOr (jget r "description") "")
  let body := if !rawBody.isEmpty then strTake (firstLine rawBody) 200 else rawBody
  let authorInfo := jTruthyOrEmpty (jgetD r "author" (.jobj []))
  { tag := tag
    name := jStrOr (jget r "name") tag
    body := if body.isEmpty then "无更新说明" else body
    author := jStrOr (jget authorInfo "username")
      (jStrOr (jget authorInfo "login") "Unknown")
    date := parse_datetime iso
      (jStrOr (jget r "published_at") (jStrOr (jget r "released_at") ""))
    repo := repo
    provider := "CNB"
    url := some ("https://cnb.cool/" ++ repo ++ "/-/releases/" ++ tag) }

/-- `CNBProvider.get_latest_release`: `if not data: return None`, then the
first element when the response is a list, the response itself otherwise. -/
def cnbGetLatestRelease (iso : String → Option String) (data : Option JVal)
    (repo : String) : Option ReleaseInfo :=
  match data with
  | none => none
  | some d =>
      if !truthy d then none
      else
        match d with
        | .jarr [] => none
        | .jarr (r0 :: _) => some (cnbReleaseFrom iso repo r0)
        | other => some (cnbReleaseFrom iso repo other)

/-- One issued page request of `_fetch_all_pages`: the `page` and
`per_page` query parameters. -/
structure PageRequest where
  page : Nat
  per_page : Nat
deriving DecidableEq

/-- The `while page <= max_pages` loop of `BaseGitProvider._fetch_all_pages`,
recursing on the number of pages still allowed. `resp page = none` models a
non-200 status or a raised exception; a falsy body, and a non-list body, end
the loop; a short list page (fewer than `perPage` items) is kept and ends
the loop. Returns the issued requests and the accumulated items. -/
def fetchAllPagesAux (resp : Nat → Option JVal) (perPage : Nat) :
    Nat → Nat → List PageRequest × List JVal
  | _, 0 => ([], [])
  | page, remaining + 1 =>
      let req : PageRequest := { page := page, per_page := perPage }
      match resp page with
      | none => ([req], [])
      | some data =>
          if !truthy data then ([req], [])
          else
            match data with
            | .jarr xs =>
                if xs.length < perPage then ([req], xs)
                else
                  let next := fetchAllPagesAux resp perPage (page + 1) remaining
                  (req :: next.1, xs ++ next.2)
            | _ => ([req], [])

/-- `BaseGitProvider._fetch_all_pages` with its defaults:
`page` starts at 1, `per_page = 100`, `max_pages = 10` (every call site
uses the default cap). -/
def fetchAllPages (resp : Nat → Option JVal) : List PageRequest × List JVal :=
  fetchAllPagesAux resp 100 1 10

/-- Observable actions of one check cycle: a cache write performed by
`set_cached_commit_sha`/`set_cached_release_tag`, and one delivery attempt
of `_send_push` to one target (`ok` is the delivery outcome; a failure is
logged and swallowed). -/
inductive Event where
  | write (key : String) (value : String)
  | notify (target : String) (message : String) (ok : Bool)
deriving DecidableEq

/-- Whether an event is a cache write. -/
def Event.isWrite : Event → Bool
  | .write _ _ => true
  | _ => false

/-- `GitPushPlugin._check_commits` given the fetched commit: compare with
the cached sha keyed by `commit.branch`, overwrite on change, and suppress
the result on a first observation with `first_push` disabled. Returns the
new cache, the update to push (if any) and the write events performed. -/
def check_commits (firstPush : Bool) (c : UpdateCache) (cfg : RepoWatchConfig)
    (fetched : Option CommitInfo) : UpdateCache × Option CommitInfo × List Event :=
  match fetched with
  | none => (c, none, [])
  | some commit =>
      let cachedSha := get_cached_commit_sha c cfg.provider cfg.repo commit.branch
      let isFirst := is_first_commit_check c cfg.provider cfg.repo commit.branch
      if jEqStr cachedSha commit.sha then (c, none, [])
      else
        let c' := set_cached_commit_sha c cfg.provider cfg.repo commit.branch commit.sha
        let evs := [Event.write (getCommitKey cfg.provider cfg.repo commit.branch) commit.sha]
        if isFirst && !firstPush then (c', none, evs)
        else (c', some commit, evs)

/-- `GitPushPlugin._check_release` given the fetched release. -/
def check_release (firstPush : Bool) (c : UpdateCache) (cfg : RepoWatchConfig)
    (fetched : Option ReleaseInfo) : UpdateCache × Option ReleaseInfo × List Event :=
  match fetched with
  | none => (c, none, [])
  | some release =>
      let cachedTag := get_cached_release_tag c cfg.provider cfg.repo
      let isFirst := is_first_release_check c cfg.provider cfg.repo
      if jEqStr cachedTag release.tag then (c, none, [])
      else
        let c' := set_cached_release_tag c cfg.provider cfg.repo release.tag
        let evs := [Event.write (getReleaseKey cfg.provider cfg.repo) release.tag]
        if isFirst && !firstPush then (c', none, evs)
        else (c', some release, evs)

/-- An entry of `all_updates` in `GitPushPlugin._check_and_push`: the
update's info together with the watch entry's note. -/
inductive UpdateEntry where
  | commit (info : CommitInfo) (note : String)
  | release (info : ReleaseInfo) (note : String)
deriving DecidableEq

/-- The message `_check_and_push` renders for one update:
`to_push_message` plus the optional note line. -/
def renderUpdate : UpdateEntry → String
  | .commit info note =>
      let m := info.to_push_message
      if !note.isEmpty then m ++ "\n📌 备注: " ++ note else m
  | .release info note =>
      let m := info.to_push_message
      if !note.isEmpty then m ++ "\n📌 备注: " ++ note else m

/-- The `watch_type` dispatch of one loop iteration of
`GitPushPlugin._check_and_push`. -/
def checkOne (firstPush : Bool)
    (fetchC : RepoWatchConfig → Option CommitInfo)
    (fetchR : RepoWatchConfig → Option ReleaseInfo)
    (c : UpdateCache) (cfg : RepoWatchConfig) :
    UpdateCache × Option UpdateEntry × List Event :=
  if cfg.watch_type = "commits" then
    let r := check_commits firstPush c cfg (fetchC cfg)
    (r.1, r.2.1.map (fun i => UpdateEntry.commit i cfg.note), r.2.2)
  else
    let r := check_release firstPush c cfg (fetchR cfg)
    (r.1, r.2.1.map (fun i => UpdateEntry.release i cfg.note), r.2.2)

/-- The checking loop of `GitPushPlugin._check_and_push`: skip entries of
providers that are not initialized (`provider.lower() not in self.providers`),
run the per-entry check threading the cache through, and collect the
updates in entry order. -/
def runChecks (firstPush : Bool) (providers : List String)
    (fetchC : RepoWatchConfig → Option CommitInfo)
    (fetchR : RepoWatchConfig → Option ReleaseInfo) :
    List RepoWatchConfig → UpdateCache →
    UpdateCache × List Event × List UpdateEntry
  | [], c => (c, [], [])
  | cfg :: rest, c =>
      if providers.contains (strLower cfg.provider) then
        let step := checkOne firstPush fetchC fetchR c cfg
        let next := runChecks firstPush providers fetchC fetchR rest step.1
        (next.1, step.2.2 ++ next.2.1,
          match step.2.1 with
          | some u => u :: next.2.2
          | none => next.2.2)
      else
        runChecks firstPush providers fetchC fetchR rest c

/-- `GitPushPlugin._send_push` for one message: one delivery attempt per
configured group target then per user target; a failed attempt is logged
and does not block the remaining targets. -/
def sendPush (groups users : List String) (deliver : String → String → Bool)
    (message : String) : List Event :=
  groups.map (fun g => Event.notify g message (deliver g message)) ++
    users.map (fun u => Event.notify u message (deliver u message))

/-- Result of one full check cycle: the final cache, the ordered trace of
writes and delivery attempts, and the returned `update_count`. -/
structure CycleResult where
  cache : UpdateCache
  trace : List Event
  count : Nat

/-- `GitPushPlugin._check_and_push`: run every check first (all cache
writes happen here), then push every collected update. -/
def check_and_push (firstPush : Bool) (providers : List String)
    (fetchC : RepoWatchConfig → Option CommitInfo)
    (fetchR : RepoWatchConfig → Option ReleaseInfo)
    (groups users : List String) (deliver : String → String → Bool)
    (repos : List RepoWatchConfig) (c : UpdateCache) : CycleResult :=
  let r := runChecks firstPush providers fetchC fetchR repos c
  let pushEvs := r.2.2.foldl
    (fun acc u => acc ++ sendPush groups users deliver (renderUpdate u)) []
  { cache := r.1, trace := r.2.1 ++ pushEvs, count := r.2.2.length }

/-- Well-formedness of the store: every stored value is a JSON object.
Every state the plugin itself writes satisfies this (commit and release
records are `{"sha": ...}` / `{"tag": ...}` objects and `_group_repos` is
an object of lists); on a value of any other shape the Python code would
raise inside `dict.get` instead of proceeding. -/
def WFCache (c : UpdateCache) : Prop :=
  ∀ k v, dictGet c.cache k = some v → v.isObj = true

/-! ### Association-list and JSON lemmas -/

theorem dictGet_dictSet_self {α : Type} (d : List (String × α)) (k : String) (v : α) :
    dictGet (dictSet d k v) k = some v := by
  induction d with
  | nil => simp [dictSet, dictGet]
  | cons hd tl ih =>
      obtain ⟨a, w⟩ := hd
      by_cases h : a = k
      · subst h; simp [dictSet, dictGet]
      · simp [dictSet, dictGet, h, ih]

theorem dictGet_dictSet_ne {α : Type} (d : List (String × α)) (k k' : String) (v : α)
    (h : k' ≠ k) : dictGet (dictSet d k v) k' = dictGet d k' := by
  induction d with
  | nil =>
      have hk : ¬ k = k' := fun hk => h hk.symm
      simp [dictSet, dictGet, hk]
  | cons hd tl ih =>
      obtain ⟨a, w⟩ := hd
      by_cases ha : a = k
      · subst ha
        have hk : ¬ a = k' := fun hk => h hk.symm
        simp [dictSet, dictGet, hk]
      · simp only [dictSet, if_neg ha, dictGet, ih]

theorem dictGet_dictSet_cases {α : Type} (d : List (String × α)) (k k' : String) (v w : α)
    (h : dictGet (dictSet d k v) k' = some w) : w = v ∨ dictGet d k' = some w := by
  by_cases hk : k' = k
  · subst hk
    rw [dictGet_dictSet_self] at h
    exact Or.inl (Option.some.inj h).symm
  · rw [dictGet_dictSet_ne d k k' v hk] at h
    exact Or.inr h

theorem dictGet_filter_key {α : Type} (p : String → Bool) (d : List (String × α)) (k : String) :
    dictGet (d.filter (fun e => p e.1)) k = if p k then dictGet d k else none := by
  induction d with
  | nil => simp [dictGet]
  | cons hd tl ih =>
      obtain ⟨a, v⟩ := hd
      by_cases hp : p a
      · simp only [List.filter, hp, dictGet]
        by_cases hk : a = k
        · subst hk; simp [dictGet, hp]
        · simp [dictGet, hk, ih]
      · simp only [List.filter, hp, dictGet]
        rw [ih]
        by_cases hk : a = k
        · subst hk
          simp only [Bool.false_eq_true] at hp
          simp [hp]
        · by_cases h2 : p k <;> simp [h2, dictGet, hk]

theorem mem_dictSet {α : Type} (d : List (String × α)) (k k' : String) (v v' : α)
    (h : (k, v) ∈ dictSet d k' v') : (k, v) ∈ d ∨ (k = k' ∧ v = v') := by
  induction d with
  | nil =>
      simp [dictSet] at h
      exact Or.inr h
  | cons hd tl ih =>
      obtain ⟨a, w⟩ := hd
      by_cases ha : a = k'
      · subst ha
        simp [dictSet, Prod.mk.injEq] at h
        rcases h with h1 | h1
        · exact Or.inr ⟨h1.1, h1.2⟩
        · exact Or.inl (List.mem_cons_of_mem _ h1)
      · simp only [dictSet, if_neg ha, List.mem_cons] at h
        rcases h with h1 | h1
        · exact Or.inl (List.mem_cons.mpr (Or.inl h1))
        · rcases ih h1 with h2 | h2
          · exact Or.inl (List.mem_cons_of_mem _ h2)
          · exact Or.inr h2

theorem jget_isObj (v : JVal) (k : String) (x : JVal) (h : jget v k = some x) :
    v.isObj = true := by
  cases v <;> simp [jget, JVal.isObj] at h ⊢

theorem jget_jset_self (v : JVal) (k : String) (x : JVal) (h : v.isObj = true) :
    jget (jset v k x) k = some x := by
  cases v <;> simp [JVal.isObj] at h ⊢
  simp [jset, jget, dictGet_dictSet_self]

theorem jset_isObj (v : JVal) (k : String) (x : JVal) (h : v.isObj = true) :
    (jset v k x).isObj = true := by
  cases v <;> simp [JVal.isObj] at h ⊢
  simp [jset, JVal.isObj]

theorem encodeGroupRepos_isObj (rc : List (String × List String)) :
    (encodeGroupRepos rc).isObj = true := by
  simp [encodeGroupRepos, JVal.isObj]

/-! ### Cache-key lemmas -/

theorem getCommitKey_ne_meta (p r b : String) : getCommitKey p r b ≠ "_group_repos" := by
  intro h
  simp only [getCommitKey] at h
  have hd := congrArg String.data h
  simp only [String.data_append, List.cons_append, List.append_assoc] at hd
  injection hd with h1 _
  exact absurd h1 (by decide)

theorem getReleaseKey_ne_meta (p r : String) : getReleaseKey p r ≠ "_group_repos" := by
  intro h
  simp only [getReleaseKey] at h
  have hd := congrArg String.data h
  simp only [String.data_append, List.cons_append, List.append_assoc] at hd
  injection hd with h1 _
  exact absurd h1 (by decide)

theorem getCommitKey_branch_inj (p r b b' : String)
    (h : getCommitKey p r b = getCommitKey p r b') : b = b' := by
  simp only [getCommitKey] at h
  have hd := congrArg String.data h
  simp only [String.data_append] at hd
  have hb : b.data = b'.data := List.append_cancel_left hd
  cases b; cases b'
  exact congrArg String.mk (by simpa using hb)

/-! ### Storage getter/setter lemmas -/

theorem get_cached_commit_sha_set (c : UpdateCache) (p r b sha : String)
    (hobj : ∀ v, dictGet c.cache (getCommitKey p r b) = some v → v.isObj = true) :
    get_cached_commit_sha (set_cached_commit_sha c p r b sha) p r b =
      some (.jstr sha) := by
  simp only [get_cached_commit_sha, set_cached_commit_sha, saveCache]
  rw [dictGet_dictSet_ne _ _ _ _ (getCommitKey_ne_meta p r b), dictGet_dictSet_self]
  simp only [Option.getD_some]
  apply jget_jset_self
  cases hg : dictGet c.cache (getCommitKey p r b) with
  | none => simp [JVal.isObj]
  | some u => simpa using hobj u hg

theorem get_cached_release_tag_set (c : UpdateCache) (p r tag : String)
    (hobj : ∀ v, dictGet c.cache (getReleaseKey p r) = some v → v.isObj = true) :
    get_cached_release_tag (set_cached_release_tag c p r tag) p r =
      some (.jstr tag) := by
  simp only [get_cached_release_tag, set_cached_release_tag, saveCache]
  rw [dictGet_dictSet_ne _ _ _ _ (getReleaseKey_ne_meta p r), dictGet_dictSet_self]
  simp only [Option.getD_some]
  apply jget_jset_self
  cases hg : dictGet c.cache (getReleaseKey p r) with
  | none => simp [JVal.isObj]
  | some u => simpa using hobj u hg

theorem is_first_false_of_get_commit (c : UpdateCache) (p r b : String) (x : JVal)
    (h : get_cached_commit_sha c p r b = some x) :
    is_first_commit_check c p r b = false := by
  simp only [get_cached_commit_sha] at h
  simp only [is_first_commit_check, dictHas]
  cases hg : dictGet c.cache (getCommitKey p r b) with
  | none => rw [hg] at h; simp [jget, dictGet] at h
  | some u => simp

theorem is_first_false_of_get_release (c : UpdateCache) (p r : String) (x : JVal)
    (h : get_cached_release_tag c p r = some x) :
    is_first_release_check c p r = false := by
  simp only [get_cached_release_tag] at h
  simp only [is_first_release_check, dictHas]
  cases hg : dictGet c.cache (getReleaseKey p r) with
  | none => rw [hg] at h; simp [jget, dictGet] at h
  | some u => simp

theorem obj_of_get_commit (c : UpdateCache) (p r b : String) (x : JVal)
    (h : get_cached_commit_sha c p r b = some x) :
    ∀ v, dictGet c.cache (getCommitKey p r b) = some v → v.isObj = true := by
  intro v hv
  simp only [get_cached_commit_sha, hv, Option.getD_some] at h
  exact jget_isObj v "sha" x h

theorem obj_of_get_release (c : UpdateCache) (p r : String) (x : JVal)
    (h : get_cached_release_tag c p r = some x) :
    ∀ v, dictGet c.cache (getReleaseKey p r) = some v → v.isObj = true := by
  intro v hv
  simp only [get_cached_release_tag, hv, Option.getD_some] at h
  exact jget_isObj v "tag" x h

/-! ### Well-formedness preservation -/

theorem WFCache_set_commit (c : UpdateCache) (p r b sha : String) (h : WFCache c) :
    WFCache (set_cached_commit_sha c p r b sha) := by
  intro k v hv
  simp only [set_cached_commit_sha, saveCache] at hv
  rcases dictGet_dictSet_cases _ _ _ _ _ hv with h1 | h1
  · subst h1; exact encodeGroupRepos_isObj _
  · rcases dictGet_dictSet_cases _ _ _ _ _ h1 with h2 | h2
    · subst h2
      apply jset_isObj
      cases hg : dictGet c.cache (getCommitKey p r b) with
      | none => simp [JVal.isObj]
      | some u => simpa using h _ u hg
    · exact h _ v h2

theorem WFCache_set_release (c : UpdateCache) (p r tag : String) (h : WFCache c) :
    WFCache (set_cached_release_tag c p r tag) := by
  intro k v hv
  simp only [set_cached_release_tag, saveCache] at hv
  rcases dictGet_dictSet_cases _ _ _ _ _ hv with h1 | h1
  · subst h1; exact encodeGroupRepos_isObj _
  · rcases dictGet_dictSet_cases _ _ _ _ _ h1 with h2 | h2
    · subst h2
      apply jset_isObj
      cases hg : dictGet c.cache (getReleaseKey p r) with
      | none => simp [JVal.isObj]
      | some u => simpa using h _ u hg
    · exact h _ v h2

/-- Every event `_send_push` produces is a delivery attempt, never a cache
write. -/
theorem sendPush_no_write (groups users : List String)
    (deliver : String → String → Bool) (message : String) :
    ∀ e ∈ sendPush groups users deliver message, e.isWrite = false := by
  intro e he
  simp only [sendPush, List.mem_append, List.mem_map] at he
  rcases he with ⟨t, _, rfl⟩ | ⟨t, _, rfl⟩ <;> rfl

/-! ### Group-expansion helper lemmas -/

theorem expandGroup_mem (g : GroupWatchConfig) (repos : List RepoInfo)
    (acc : List (String × RepoWatchConfig)) (k : String) (cfg : RepoWatchConfig)
    (h : (k, cfg) ∈ expandGroup g repos acc) :
    (k, cfg) ∈ acc ∨
      ∃ ri ∈ repos, g.should_watch_repo ri.repo_name = true ∧
        cfg = mkGroupRepoConfig g ri := by
  induction repos generalizing acc with
  | nil =>
      simp [expandGroup] at h
      exact Or.inl h
  | cons ri rest ih =>
      simp only [expandGroup] at h
      by_cases hw : g.should_watch_repo ri.repo_name
      · rw [if_pos hw] at h
        rcases ih _ h with hacc | ⟨ri', hmem, hw', hcfg⟩
        · rcases mem_dictSet _ _ _ _ _ hacc with h2 | h2
          · exact Or.inl h2
          · exact Or.inr ⟨ri, List.mem_cons_self _ _, hw, h2.2⟩
        · exact Or.inr ⟨ri', List.mem_cons_of_mem _ hmem, hw', hcfg⟩
      · rw [if_neg hw] at h
        rcases ih _ h with hacc | ⟨ri', hmem, hw', hcfg⟩
        · exact Or.inl hacc
        · exact Or.inr ⟨ri', List.mem_cons_of_mem _ hmem, hw', hcfg⟩

/-- C5: during group expansion a repo named in the exclude list is never
expanded into a watch entry, include list or not, and an empty include
list admits every non-excluded repo: `should_watch_repo` holds exactly for
non-excluded repos that are in the include list or face an empty include
list, and every entry of the expanded map arises from a listed repo that
passed `should_watch_repo`. -/
theorem C5_include_exclude_policy :
    (∀ (g : GroupWatchConfig) (n : String),
      g.should_watch_repo n = true ↔
        (n ∉ g.exclude_repos ∧ (g.include_repos = [] ∨ n ∈ g.include_repos))) ∧
    (∀ (g : GroupWatchConfig) (repos : List RepoInfo) (k : String)
      (cfg : RepoWatchConfig), (k, cfg) ∈ expandGroup g repos [] →
        ∃ ri ∈ repos, g.should_watch_repo ri.repo_name = true ∧
          cfg = mkGroupRepoConfig g ri) := by
  constructor
  · intro g n
    simp only [GroupWatchConfig.should_watch_repo]
    by_cases he : n ∈ g.exclude_repos
    · simp [he, List.elem_iff]
    · by_cases hi : g.include_repos = []
      · simp [he, hi, List.elem_iff]
      · by_cases hn : n ∈ g.include_repos
        · simp [he, hi, hn, List.elem_iff]
        · simp [he, hi, hn, List.elem_iff, List.isEmpty_iff]
  · intro g repos k cfg h
    rcases expandGroup_mem g repos [] k cfg h with hacc | hex
    · simp at hacc
    · exact hex

/-- Witness for C5 at concrete inputs: a group watching `org` with
`exclude_repos = ["bad"]` and an empty include list; the expanded map of
`[org/good, org/bad]` contains only the entry built from `org/good`. -/
theorem C5_include_exclude_policy_witness :
    ∃ ri ∈ [RepoInfo.mk "org/good" "good" "main" "" "",
            RepoInfo.mk "org/bad" "bad" "main" "" ""],
      (GroupWatchConfig.mk "github" "org" "commits" [] ["bad"] "" "").should_watch_repo
          ri.repo_name = true ∧
        RepoWatchConfig.mk "github" "org/good" "main" "commits" "" =
          mkGroupRepoConfig (GroupWatchConfig.mk "github" "org" "commits" [] ["bad"] "" "") ri :=
  C5_include_exclude_policy.2
    (GroupWatchConfig.mk "github" "org" "commits" [] ["bad"] "" "")
    [RepoInfo.mk "org/good" "good" "main" "" "", RepoInfo.mk "org/bad" "bad" "main" "" ""]
    "github:org/good:main:commits"
    (RepoWatchConfig.mk "github" "org/good" "main" "commits" "")
    (by decide)

/-! ### Pagination -/

theorem fetchAllPagesAux_props (resp : Nat → Option JVal) (perPage : Nat) :
    ∀ (remaining page : Nat),
      (fetchAllPagesAux resp perPage page remaining).1.length ≤ remaining ∧
      ∀ rq ∈ (fetchAllPagesAux resp perPage page remaining).1,
        rq.per_page = perPage ∧ page ≤ rq.page ∧ rq.page < page + remaining := by
  intro remaining
  induction remaining with
  | zero => intro page; simp [fetchAllPagesAux]
  | succ n ih =>
      intro page
      simp only [fetchAllPagesAux]
      cases hr : resp page with
      | none => simp
      | some data =>
          by_cases ht : truthy data
          · simp only [ht, Bool.not_true, Bool.false_eq_true, if_false]
            cases data with
            | jarr xs =>
                by_cases hl : xs.length < perPage
                · simp [hl]
                · simp only [hl, if_false]
                  constructor
                  · simp only [List.length_cons]
                    have := (ih (page + 1)).1
                    omega
                  · intro rq hrq
                    simp only [List.mem_cons] at hrq
                    rcases hrq with rfl | hrq
                    · exact ⟨rfl, Nat.le_refl _, Nat.lt_add_of_pos_right (Nat.succ_pos n)⟩
                    · have := (ih (page + 1)).2 rq hrq
                      exact ⟨this.1, by omega, by omega⟩
            | jnull => simp
            | jbool b => simp
            | jnum m => simp
            | jstr s => simp
            | jobj fs => simp
          · simp only [Bool.not_eq_true] at ht
            simp [ht]

/-- An upstream that always answers a full page of 100 items, so that it
claims more pages exist past any cap. -/
def fullPageResp : Nat → Option JVal :=
  fun _ => some (.jarr (List.replicate 100 (.jobj [])))

set_option maxRecDepth 10000 in
/-- C6: a paginated listing fetch issues at most 10 page requests, each
carrying `per_page = 100` and a page number between 1 and 10; against an
upstream whose every page is full (100 items, the tenth included) it
requests exactly pages 1 through 10 and keeps exactly 1000 items, dropping
everything past the cap. -/
theorem C6_pagination_cap :
    (∀ resp : Nat → Option JVal,
      (fetchAllPages resp).1.length ≤ 10 ∧
      ∀ rq ∈ (fetchAllPages resp).1,
        rq.per_page = 100 ∧ 1 ≤ rq.page ∧ rq.page ≤ 10) ∧
    ((fetchAllPages fullPageResp).1 =
        (List.range 10).map (fun i => PageRequest.mk (i + 1) 100) ∧
      (fetchAllPages fullPageResp).2.length = 1000) := by
  refine ⟨fun resp => ⟨?_, ?_⟩, by decide, by decide⟩
  · exact (fetchAllPagesAux_props resp 100 10 1).1
  · intro rq hrq
    have h := (fetchAllPagesAux_props resp 100 10 1).2 rq hrq
    exact ⟨h.1, h.2.1, by omega⟩

set_option maxRecDepth 10000 in
/-- Witness for C6: the first issued request of the full-page scenario
carries `per_page = 100` and a page number within the cap. -/
theorem C6_pagination_cap_witness :
    PageRequest.mk 1 100 ∈ (fetchAllPages fullPageResp).1 ∧
      (PageRequest.mk 1 100).per_page = 100 ∧
      1 ≤ (PageRequest.mk 1 100).page ∧ (PageRequest.mk 1 100).page ≤ 10 :=
  ⟨by decide, (C6_pagination_cap.1 fullPageResp).2 (PageRequest.mk 1 100) (by decide)⟩

/-- C8: a global clear removes every cache key that does not start with
`_`, keeps every other `_`-prefixed key with its value except the reserved
`_group_repos` key, empties the group→repo-set map, and leaves the
persisted store holding an empty `_group_repos` object. -/
theorem C8_global_clear (c : UpdateCache) :
    (∀ k, strStarts k "_" = false →
      dictGet (clear_cache c none none).cache k = none) ∧
    (∀ k, strStarts k "_" = true → k ≠ "_group_repos" →
      dictGet (clear_cache c none none).cache k = dictGet c.cache k) ∧
    (clear_cache c none none).repoCache = [] ∧
    dictGet (clear_cache c none none).cache "_group_repos" = some (.jobj []) := by
  have hc : clear_cache c none none =
      saveCache { cache := c.cache.filter (fun e => strStarts e.1 "_"),
                  repoCache := [] } := by
    simp [clear_cache, optStrTruthy]
  refine ⟨?_, ?_, ?_, ?_⟩
  · intro k hk
    rw [hc]
    simp only [saveCache]
    have hkne : k ≠ "_group_repos" := by
      intro h
      subst h
      exact absurd hk (by decide)
    rw [dictGet_dictSet_ne _ _ _ _ hkne,
      dictGet_filter_key (fun s => strStarts s "_")]
    simp [hk]
  · intro k hk hkne
    rw [hc]
    simp only [saveCache]
    rw [dictGet_dictSet_ne _ _ _ _ hkne,
      dictGet_filter_key (fun s => strStarts s "_")]
    simp [hk]
  · rw [hc]
    simp [saveCache]
  · rw [hc]
    simp only [saveCache]
    rw [dictGet_dictSet_self]
    rfl

/-- Witness for C8 at a concrete store: after a global clear the commit
record is gone, the unrelated metadata key `_extra` keeps its value, the
group map is empty and `_group_repos` persists as an empty object. -/
theorem C8_global_clear_witness :
    (strStarts "commit:gh:o/r:m" "_" = false ∧
      dictGet (clear_cache
        (UpdateCache.mk
          [("commit:gh:o/r:m", .jobj [("sha", .jstr "a")]), ("_extra", .jobj [])]
          [("gh:grp", ["r"])]) none none).cache "commit:gh:o/r:m" = none) ∧
    (strStarts "_extra" "_" = true ∧ "_extra" ≠ "_group_repos" ∧
      dictGet (clear_cache
        (UpdateCache.mk
          [("commit:gh:o/r:m", .jobj [("sha", .jstr "a")]), ("_extra", .jobj [])]
          [("gh:grp", ["r"])]) none none).cache "_extra" =
        dictGet (UpdateCache.mk
          [("commit:gh:o/r:m", .jobj [("sha", .jstr "a")]), ("_extra", .jobj [])]
          [("gh:grp", ["r"])]).cache "_extra") :=
  ⟨⟨by decide,
    (C8_global_clear _).1 "commit:gh:o/r:m" (by decide)⟩,
   ⟨by decide, by decide,
    (C8_global_clear _).2.1 "_extra" (by decide) (by decide)⟩⟩

/-- Counterexample to C9 as stated: with provider `gh`, the provider-scoped
clear removes the metadata key `_meta:gh:x` even though it starts with `_`,
because Python's operator precedence leaves the `":gh:" in k` disjunct
unguarded by the `not k.startswith("_")` test. -/
theorem C9_counterexample :
    strStarts "_meta:gh:x" "_" = true ∧
    dictGet (UpdateCache.mk [("_meta:gh:x", .jobj [])] []).cache "_meta:gh:x" =
      some (.jobj []) ∧
    dictGet (clear_cache (UpdateCache.mk [("_meta:gh:x", .jobj [])] [])
      (some "gh") none).cache "_meta:gh:x" = none :=
  ⟨by decide, rfl, rfl⟩


/-- C9 amended: a provider-scoped clear preserves every `_`-prefixed key
that does not contain `:{provider}:` as a substring (in particular the
reserved `_group_repos` key, which contains no colon, always survives);
but a `_`-prefixed key containing `:{provider}:` is removed, Python's
operator precedence leaving that disjunct unguarded. -/
theorem C9_provider_clear_preserves_meta (p : String) (c : UpdateCache) (k : String)
    (hk : strStarts k "_" = true)
    (hsub : strContainsSub k (":" ++ p ++ ":") = false)
    (hhas : dictHas c.cache k = true) :
    dictHas (clear_cache c (some p) none).cache k = true := by
  by_cases hp : p = ""
  · subst hp
    have hc : clear_cache c (some "") none =
        saveCache { cache := c.cache.filter (fun e => strStarts e.1 "_"),
                    repoCache := [] } := by
      unfold clear_cache
      rw [if_neg (by decide), if_neg (by decide)]
    rw [hc]
    simp only [saveCache, dictHas]
    by_cases hkm : k = "_group_repos"
    · subst hkm
      rw [dictGet_dictSet_self]
      rfl
    · rw [dictGet_dictSet_ne _ _ _ _ hkm,
        dictGet_filter_key (fun s => strStarts s "_")]
      simp only [hk, if_true]
      exact hhas
  · have hpe : p.isEmpty = false := by
      cases hb : p.isEmpty
      · rfl
      · exact absurd ((String.isEmpty_iff p).mp hb) hp
    have hc : clear_cache c (some p) none =
        saveCache { c with cache := c.cache.filter (fun e =>
          !((!strStarts e.1 "_" && strEnds e.1 (":" ++ p)) ||
            strContainsSub e.1 (":" ++ p ++ ":"))) } := by
      unfold clear_cache
      rw [if_neg (by simp [optStrTruthy]), if_pos (by simp [optStrTruthy, hpe])]
      simp only [Option.getD_some]
    rw [hc]
    simp only [saveCache, dictHas]
    by_cases hkm : k = "_group_repos"
    · subst hkm
      rw [dictGet_dictSet_self]
      rfl
    · rw [dictGet_dictSet_ne _ _ _ _ hkm,
        dictGet_filter_key
          (fun s => !((!strStarts s "_" && strEnds s (":" ++ p)) ||
            strContainsSub s (":" ++ p ++ ":")))]
      simp only [hk, hsub, Bool.not_true, Bool.false_and, Bool.or_false,
        Bool.not_false, if_true]
      exact hhas

/-- Witness for C9 amended: provider `gh` does not remove `_group_repos`. -/
theorem C9_provider_clear_preserves_meta_witness :
    strStarts "_group_repos" "_" = true ∧
    strContainsSub "_group_repos" (":" ++ "gh" ++ ":") = false ∧
    dictHas (UpdateCache.mk [("_group_repos", .jobj [])] []).cache "_group_repos" = true ∧
    dictHas (clear_cache (UpdateCache.mk [("_group_repos", .jobj [])] [])
      (some "gh") none).cache "_group_repos" = true :=
  ⟨by decide, by decide, by decide,
    C9_provider_clear_preserves_meta "gh" (UpdateCache.mk [("_group_repos", .jobj [])] [])
      "_group_repos" (by decide) (by decide) (by decide)⟩

/-- C2: on a key with no prior cache record, a check that fetched a value
emits no update when `first_push` is disabled, yet always writes the
observed sha (commit case, keyed by the fetched commit's branch) or tag
(release case) into the cache. -/
theorem C2_first_observation (c : UpdateCache) (cfg : RepoWatchConfig)
    (ci : CommitInfo) (ri : ReleaseInfo) :
    (is_first_commit_check c cfg.provider cfg.repo ci.branch = true →
      (check_commits false c cfg (some ci)).2.1 = none ∧
      get_cached_commit_sha (check_commits false c cfg (some ci)).1
        cfg.provider cfg.repo ci.branch = some (.jstr ci.sha)) ∧
    (is_first_release_check c cfg.provider cfg.repo = true →
      (check_release false c cfg (some ri)).2.1 = none ∧
      get_cached_release_tag (check_release false c cfg (some ri)).1
        cfg.provider cfg.repo = some (.jstr ri.tag)) := by
  constructor
  · intro h
    have hnone : dictGet c.cache (getCommitKey cfg.provider cfg.repo ci.branch) = none := by
      cases hg : dictGet c.cache (getCommitKey cfg.provider cfg.repo ci.branch) with
      | none => rfl
      | some v =>
          simp only [is_first_commit_check, dictHas, hg] at h
          simp at h
    have hget : get_cached_commit_sha c cfg.provider cfg.repo ci.branch = none := by
      simp [get_cached_commit_sha, hnone, jget, dictGet]
    have hres : check_commits false c cfg (some ci) =
        (set_cached_commit_sha c cfg.provider cfg.repo ci.branch ci.sha, none,
          [Event.write (getCommitKey cfg.provider cfg.repo ci.branch) ci.sha]) := by
      simp only [check_commits, hget, h]
      simp [jEqStr]
    rw [hres]
    refine ⟨rfl, ?_⟩
    apply get_cached_commit_sha_set
    intro v hv
    rw [hnone] at hv
    cases hv
  · intro h
    have hnone : dictGet c.cache (getReleaseKey cfg.provider cfg.repo) = none := by
      cases hg : dictGet c.cache (getReleaseKey cfg.provider cfg.repo) with
      | none => rfl
      | some v =>
          simp only [is_first_release_check, dictHas, hg] at h
          simp at h
    have hget : get_cached_release_tag c cfg.provider cfg.repo = none := by
      simp [get_cached_release_tag, hnone, jget, dictGet]
    have hres : check_release false c cfg (some ri) =
        (set_cached_release_tag c cfg.provider cfg.repo ri.tag, none,
          [Event.write (getReleaseKey cfg.provider cfg.repo) ri.tag]) := by
      simp only [check_release, hget, h]
      simp [jEqStr]
    rw [hres]
    refine ⟨rfl, ?_⟩
    apply get_cached_release_tag_set
    intro v hv
    rw [hnone] at hv
    cases hv

/-- Witness for C2: an empty store, a commit `abc1234` and a release `v1`. -/
theorem C2_first_observation_witness :
    (is_first_commit_check (UpdateCache.mk [] []) "github" "octo/repo" "main" = true ∧
      (check_commits false (UpdateCache.mk [] [])
        (RepoWatchConfig.mk "github" "octo/repo" "main" "commits" "")
        (some (CommitInfo.mk "abc1234" "m" "a" "d" "main" "octo/repo" "GitHub" none))).2.1 =
          none ∧
      get_cached_commit_sha (check_commits false (UpdateCache.mk [] [])
        (RepoWatchConfig.mk "github" "octo/repo" "main" "commits" "")
        (some (CommitInfo.mk "abc1234" "m" "a" "d" "main" "octo/repo" "GitHub" none))).1
        "github" "octo/repo" "main" = some (.jstr "abc1234")) ∧
    (is_first_release_check (UpdateCache.mk [] []) "github" "octo/repo" = true ∧
      (check_release false (UpdateCache.mk [] [])
        (RepoWatchConfig.mk "github" "octo/repo" "main" "releases" "")
        (some (ReleaseInfo.mk "v1" "v1" "b" "a" "d" "octo/repo" "GitHub" none))).2.1 =
          none ∧
      get_cached_release_tag (check_release false (UpdateCache.mk [] [])
        (RepoWatchConfig.mk "github" "octo/repo" "main" "releases" "")
        (some (ReleaseInfo.mk "v1" "v1" "b" "a" "d" "octo/repo" "GitHub" none))).1
        "github" "octo/repo" = some (.jstr "v1")) := by
  constructor
  · refine ⟨by decide, ?_, ?_⟩
    · exact ((C2_first_observation (UpdateCache.mk [] [])
        (RepoWatchConfig.mk "github" "octo/repo" "main" "commits" "")
        (CommitInfo.mk "abc1234" "m" "a" "d" "main" "octo/repo" "GitHub" none)
        (ReleaseInfo.mk "v1" "v1" "b" "a" "d" "octo/repo" "GitHub" none)).1
        (by decide)).1
    · exact ((C2_first_observation (UpdateCache.mk [] [])
        (RepoWatchConfig.mk "github" "octo/repo" "main" "commits" "")
        (CommitInfo.mk "abc1234" "m" "a" "d" "main" "octo/repo" "GitHub" none)
        (ReleaseInfo.mk "v1" "v1" "b" "a" "d" "octo/repo" "GitHub" none)).1
        (by decide)).2
  · refine ⟨by decide, ?_, ?_⟩
    · exact ((C2_first_observation (UpdateCache.mk [] [])
        (RepoWatchConfig.mk "github" "octo/repo" "main" "releases" "")
        (CommitInfo.mk "abc1234" "m" "a" "d" "main" "octo/repo" "GitHub" none)
        (ReleaseInfo.mk "v1" "v1" "b" "a" "d" "octo/repo" "GitHub" none)).2
        (by decide)).1
    · exact ((C2_first_observation (UpdateCache.mk [] [])
        (RepoWatchConfig.mk "github" "octo/repo" "main" "releases" "")
        (CommitInfo.mk "abc1234" "m" "a" "d" "main" "octo/repo" "GitHub" none)
        (ReleaseInfo.mk "v1" "v1" "b" "a" "d" "octo/repo" "GitHub" none)).2
        (by decide)).2

/-- Writing a commit sha under one branch key leaves the record of every
other branch key untouched. -/
theorem get_cached_commit_sha_set_other (c : UpdateCache) (p r b b' sha : String)
    (h : b' ≠ b) :
    get_cached_commit_sha (set_cached_commit_sha c p r b sha) p r b' =
      get_cached_commit_sha c p r b' := by
  simp only [get_cached_commit_sha, set_cached_commit_sha, saveCache]
  rw [dictGet_dictSet_ne _ _ _ _ (getCommitKey_ne_meta p r b'),
    dictGet_dictSet_ne _ _ _ _ (fun hkk => h (getCommitKey_branch_inj p r b' b hkk))]

/-- C10: when a watch entry's configured branch is empty, the commit check
keys the cache by the branch the provider resolved (carried in
`CommitInfo.branch` by `get_latest_commit`), not by the empty string: the
write event and the persisted record land under
`commit:{provider}:{repo}:{resolved-default-branch}`, and the
empty-branch key is left untouched whenever the resolved branch is
nonempty. -/
theorem C10_empty_branch_resolved_key (iso : String → Option String)
    (meta cdata : Option JVal) (cfg : RepoWatchConfig) (c : UpdateCache)
    (fp : Bool) (ci : CommitInfo)
    (hbr : cfg.branch = "")
    (hfetch : githubGetLatestCommit iso meta cdata cfg.repo cfg.branch = some ci)
    (hfresh : dictHas c.cache
      (getCommitKey cfg.provider cfg.repo (githubGetDefaultBranch meta)) = false) :
    ci.branch = githubGetDefaultBranch meta ∧
    (check_commits fp c cfg (some ci)).2.2 =
      [Event.write (getCommitKey cfg.provider cfg.repo (githubGetDefaultBranch meta))
        ci.sha] ∧
    get_cached_commit_sha (check_commits fp c cfg (some ci)).1 cfg.provider cfg.repo
      (githubGetDefaultBranch meta) = some (.jstr ci.sha) ∧
    (githubGetDefaultBranch meta ≠ "" →
      get_cached_commit_sha (check_commits fp c cfg (some ci)).1 cfg.provider cfg.repo
        "" = get_cached_commit_sha c cfg.provider cfg.repo "") := by
  rw [hbr] at hfetch
  have hemp : ("" : String).isEmpty = true := by decide
  have hb : ci.branch = githubGetDefaultBranch meta := by
    cases cdata with
    | none =>
        simp only [githubGetLatestCommit, hemp, if_true] at hfetch
        cases hfetch
    | some d =>
        simp only [githubGetLatestCommit, hemp, if_true] at hfetch
        by_cases hg : (!truthy d || !jHasKey d "sha") = true
        · rw [if_pos hg] at hfetch
          cases hfetch
        · rw [if_neg hg] at hfetch
          have hci := Option.some.inj hfetch
          rw [← hci]
          rfl
  have hnone : dictGet c.cache
      (getCommitKey cfg.provider cfg.repo (githubGetDefaultBranch meta)) = none := by
    cases hg : dictGet c.cache
        (getCommitKey cfg.provider cfg.repo (githubGetDefaultBranch meta)) with
    | none => rfl
    | some v =>
        simp only [dictHas, hg] at hfresh
        simp at hfresh
  have hget : get_cached_commit_sha c cfg.provider cfg.repo
      (githubGetDefaultBranch meta) = none := by
    simp [get_cached_commit_sha, hnone, jget, dictGet]
  have hcheck : (check_commits fp c cfg (some ci)).1 =
      set_cached_commit_sha c cfg.provider cfg.repo (githubGetDefaultBranch meta)
        ci.sha ∧
      (check_commits fp c cfg (some ci)).2.2 =
        [Event.write (getCommitKey cfg.provider cfg.repo (githubGetDefaultBranch meta))
          ci.sha] := by
    simp only [check_commits]
    rw [hb, hget]
    simp only [jEqStr, Bool.false_eq_true, if_false]
    constructor
    · split <;> rfl
    · split <;> rfl
  refine ⟨hb, hcheck.2, ?_, ?_⟩
  · rw [hcheck.1]
    apply get_cached_commit_sha_set
    intro v hv
    rw [hnone] at hv
    cases hv
  · intro hne
    rw [hcheck.1]
    exact get_cached_commit_sha_set_other c cfg.provider cfg.repo
      (githubGetDefaultBranch meta) "" ci.sha (fun hh => hne hh.symm)

/-- Witness for C10: metadata resolving the default branch to `dev`, a
commit response carrying sha `abc`, an empty configured branch and an
empty store. -/
theorem C10_empty_branch_resolved_key_witness :
    ((RepoWatchConfig.mk "github" "o/r" "" "commits" "").branch = "" ∧
      githubGetLatestCommit (fun _ => none)
        (some (.jobj [("default_branch", .jstr "dev")]))
        (some (.jobj [("sha", .jstr "abc")]))
        (RepoWatchConfig.mk "github" "o/r" "" "commits" "").repo
        (RepoWatchConfig.mk "github" "o/r" "" "commits" "").branch =
        some (githubCommitFrom (fun _ => none) "o/r" "dev"
          (.jobj [("sha", .jstr "abc")])) ∧
      dictHas (UpdateCache.mk [] []).cache (getCommitKey "github" "o/r"
        (githubGetDefaultBranch (some (.jobj [("default_branch", .jstr "dev")])))) =
        false) ∧
    (githubCommitFrom (fun _ => none) "o/r" "dev"
        (.jobj [("sha", .jstr "abc")])).branch =
      githubGetDefaultBranch (some (.jobj [("default_branch", .jstr "dev")])) := by
  refine ⟨⟨rfl, rfl, by decide⟩, ?_⟩
  exact (C10_empty_branch_resolved_key (fun _ => none)
    (some (.jobj [("default_branch", .jstr "dev")]))
    (some (.jobj [("sha", .jstr "abc")]))
    (RepoWatchConfig.mk "github" "o/r" "" "commits" "")
    (UpdateCache.mk [] []) false
    (githubCommitFrom (fun _ => none) "o/r" "dev" (.jobj [("sha", .jstr "abc")]))
    rfl rfl (by decide)).1

/-- Counterexample to C4 as stated: responses that lack the identifying
field do NOT make every adapter return absent.  GitLab's commit and
release decoders and CNB's commit and release decoders each return a
populated record with an empty sha/tag when the field is missing; only
GitHub guards for the field. -/
theorem C4_counterexample :
    ((gitlabGetLatestCommit (fun _ => none) "https://gitlab.com" none
        (some (.jarr [.jobj []])) "o/r" "main").map (fun c0 => c0.sha) = some "") ∧
    ((gitlabGetLatestRelease (fun _ => none) "https://gitlab.com"
        (some (.jarr [.jobj [("name", .jstr "r1")]])) "o/r").map
          (fun r0 => r0.tag) = some "") ∧
    ((cnbGetLatestCommit (fun _ => none) none
        (some (.jarr [.jobj []])) "o/r" "main").map (fun c0 => c0.sha) = some "") ∧
    ((cnbGetLatestRelease (fun _ => none)
        (some (.jarr [.jobj [("name", .jstr "r1")]])) "o/r").map
          (fun r0 => r0.tag) = some "") :=
  ⟨rfl, rfl, rfl, rfl⟩

/-- C4 amended: every adapter returns absent when the endpoint 404s
(`none` fetch result) and when the response is empty/falsy (for GitLab,
also when it is not a list); GitHub additionally returns absent when the
identifying field (`sha` / `tag_name`) is missing; GitLab and CNB instead
return a populated record whose sha/tag is the field's value with an
empty-string default. -/
theorem C4_absent_policy (iso : String → Option String) (base repo br : String)
    (meta : Option JVal) :
    ((githubGetLatestCommit iso meta none repo br = none) ∧
      (∀ v, truthy v = false → githubGetLatestCommit iso meta (some v) repo br = none) ∧
      (∀ v, jHasKey v "sha" = false →
        githubGetLatestCommit iso meta (some v) repo br = none) ∧
      (githubGetLatestRelease iso none repo = none) ∧
      (∀ v, truthy v = false → githubGetLatestRelease iso (some v) repo = none) ∧
      (∀ v, jHasKey v "tag_name" = false →
        githubGetLatestRelease iso (some v) repo = none)) ∧
    ((gitlabGetLatestCommit iso base meta none repo br = none) ∧
      (∀ v, v.isArr = false →
        gitlabGetLatestCommit iso base meta (some v) repo br = none) ∧
      (gitlabGetLatestCommit iso base meta (some (.jarr [])) repo br = none) ∧
      (∀ x rest, x.isObj = true →
        (gitlabGetLatestCommit iso base meta (some (.jarr (x :: rest))) repo br).map
          (fun c0 => c0.sha) = some (jStrOr (jget x "id") "")) ∧
      (gitlabGetLatestRelease iso base none repo = none) ∧
      (∀ v, v.isArr = false → gitlabGetLatestRelease iso base (some v) repo = none) ∧
      (gitlabGetLatestRelease iso base (some (.jarr [])) repo = none)) ∧
    ((cnbGetLatestCommit iso meta none repo br = none) ∧
      (∀ v, truthy v = false → cnbGetLatestCommit iso meta (some v) repo br = none) ∧
      (∀ x rest, x.isObj = true →
        (cnbGetLatestCommit iso meta (some (.jarr (x :: rest))) repo br).map
          (fun c0 => c0.sha) = some (jStrOr (jget x "sha") (jStrOr (jget x "id") ""))) ∧
      (cnbGetLatestRelease iso none repo = none) ∧
      (∀ v, truthy v = false → cnbGetLatestRelease iso (some v) repo = none) ∧
      (∀ x rest, x.isObj = true →
        (cnbGetLatestRelease iso (some (.jarr (x :: rest))) repo).map
          (fun r0 => r0.tag) =
          some (jStrOr (jget x "tag_name") (jStrOr (jget x "tag") "")))) := by
  refine ⟨⟨rfl, ?_, ?_, rfl, ?_, ?_⟩, ⟨rfl, ?_, rfl, ?_, rfl, ?_, rfl⟩,
    ⟨rfl, ?_, ?_, rfl, ?_, ?_⟩⟩
  · intro v hv
    simp [githubGetLatestCommit, hv]
  · intro v hv
    simp [githubGetLatestCommit, hv]
  · intro v hv
    simp [githubGetLatestRelease, hv]
  · intro v hv
    simp [githubGetLatestRelease, hv]
  · intro v hv
    cases v <;> simp [JVal.isArr] at hv ⊢ <;> simp [gitlabGetLatestCommit]
  · intro x rest hx
    simp [gitlabGetLatestCommit, truthy, gitlabCommitFrom]
  · intro v hv
    cases v <;> simp [JVal.isArr] at hv ⊢ <;> simp [gitlabGetLatestRelease]
  · intro v hv
    simp [cnbGetLatestCommit, hv]
  · intro x rest hx
    simp [cnbGetLatestCommit, truthy, cnbCommitFrom]
  · intro v hv
    simp [cnbGetLatestRelease, hv]
  · intro x rest hx
    simp [cnbGetLatestRelease, truthy, cnbReleaseFrom]

/-- Witness for C4 amended: concrete empty and field-less responses. -/
theorem C4_absent_policy_witness :
    (truthy (.jobj []) = false ∧
      githubGetLatestCommit (fun _ => none) none (some (.jobj [])) "o/r" "m" = none) ∧
    (jHasKey (.jobj [("x", .jnull)]) "sha" = false ∧
      githubGetLatestCommit (fun _ => none) none
        (some (.jobj [("x", .jnull)])) "o/r" "m" = none) ∧
    ((JVal.jobj []).isObj = true ∧
      (gitlabGetLatestCommit (fun _ => none) "b" none
        (some (.jarr [.jobj []])) "o/r" "m").map (fun c0 => c0.sha) =
        some (jStrOr (jget (.jobj []) "id") "")) ∧
    ((JVal.jobj []).isObj = true ∧
      (cnbGetLatestRelease (fun _ => none) (some (.jarr [.jobj []])) "o/r").map
        (fun r0 => r0.tag) =
        some (jStrOr (jget (.jobj []) "tag_name") (jStrOr (jget (.jobj []) "tag") ""))) :=
  ⟨⟨by decide, (C4_absent_policy (fun _ => none) "b" "o/r" "m" none).1.2.1
      (.jobj []) (by decide)⟩,
   ⟨by decide, (C4_absent_policy (fun _ => none) "b" "o/r" "m" none).1.2.2.1
      (.jobj [("x", .jnull)]) (by decide)⟩,
   ⟨by decide, (C4_absent_policy (fun _ => none) "b" "o/r" "m" none).2.1.2.2.2.1
      (.jobj []) [] (by decide)⟩,
   ⟨by decide, (C4_absent_policy (fun _ => none) "b" "o/r" "m" none).2.2.2.2.2.2.2
      (.jobj []) [] (by decide)⟩⟩

/-- The draft-skipping loop is the first list entry whose `draft` field is
not truthy. -/
theorem firstNonDraft_eq_find (xs : List JVal) :
    firstNonDraft xs =
      xs.find? (fun e => !truthy (jgetD e "draft" (.jbool false))) := by
  induction xs with
  | nil => rfl
  | cons x rest ih =>
      simp only [firstNonDraft, List.find?]
      by_cases hx : truthy (jgetD x "draft" (.jbool false))
      · simp [hx, ih]
      · simp [hx]

/-- Counterexample to C7 as stated: CNB's release API returns a list, yet
its adapter performs no draft filtering — on `[draft v1, v2]` it returns
`v1` although the first non-draft entry is the one tagged `v2`; GitLab
also deviates on an empty (falsy) first-non-draft entry, falling back to
the draft `data[0]` instead of returning that entry. -/
theorem C7_counterexample :
    ((cnbGetLatestRelease (fun _ => none)
        (some (.jarr [.jobj [("draft", .jbool true), ("tag_name", .jstr "v1")],
          .jobj [("tag_name", .jstr "v2")]])) "o/r").map (fun r0 => r0.tag) =
      some "v1") ∧
    ([JVal.jobj [("draft", .jbool true), ("tag_name", .jstr "v1")],
      JVal.jobj [("tag_name", .jstr "v2")]].find?
        (fun e => !truthy (jgetD e "draft" (.jbool false))) =
      some (.jobj [("tag_name", .jstr "v2")])) ∧
    (jStrOr (jget (.jobj [("tag_name", .jstr "v2")]) "tag_name") "" = "v2") ∧
    ("v1" : String) ≠ "v2" ∧
    ((gitlabGetLatestRelease (fun _ => none) "b"
        (some (.jarr [.jobj [("draft", .jbool true), ("tag_name", .jstr "v1")],
          .jobj []])) "o/r").map (fun r0 => r0.tag) = some "v1") ∧
    ([JVal.jobj [("draft", .jbool true), ("tag_name", .jstr "v1")],
      JVal.jobj []].find? (fun e => !truthy (jgetD e "draft" (.jbool false))) =
      some (.jobj [])) ∧
    (jStrOr (jget (.jobj []) "tag_name") "" = "") ∧
    ("v1" : String) ≠ "" :=
  ⟨rfl, rfl, rfl, by decide, rfl, rfl, rfl, by decide⟩

/-- C7 amended: GitLab's `get_latest_release` returns the first entry whose
`draft` field is falsy provided that entry is itself truthy; when no entry
is non-draft, or the selected entry is falsy (e.g. an empty object), it
falls back to the first entry of the list.  CNB's `get_latest_release`
performs no draft filtering and returns the first entry unconditionally. -/
theorem C7_release_list_selection (iso : String → Option String) (base repo : String) :
    (∀ (xs : List JVal) (r : JVal),
      xs.find? (fun e => !truthy (jgetD e "draft" (.jbool false))) = some r →
      truthy r = true →
      gitlabGetLatestRelease iso base (some (.jarr xs)) repo =
        some (gitlabReleaseFrom iso base repo r)) ∧
    (∀ (x : JVal) (rest : List JVal),
      (x :: rest).find? (fun e => !truthy (jgetD e "draft" (.jbool false))) = none →
      gitlabGetLatestRelease iso base (some (.jarr (x :: rest))) repo =
        some (gitlabReleaseFrom iso base repo x)) ∧
    (∀ (x r : JVal) (rest : List JVal),
      (x :: rest).find? (fun e => !truthy (jgetD e "draft" (.jbool false))) = some r →
      truthy r = false →
      gitlabGetLatestRelease iso base (some (.jarr (x :: rest))) repo =
        some (gitlabReleaseFrom iso base repo x)) ∧
    (∀ (x : JVal) (rest : List JVal),
      cnbGetLatestRelease iso (some (.jarr (x :: rest))) repo =
        some (cnbReleaseFrom iso repo x)) := by
  refine ⟨?_, ?_, ?_, ?_⟩
  · intro xs r hfind ht
    cases xs with
    | nil => cases hfind
    | cons x rest =>
        simp only [gitlabGetLatestRelease, firstNonDraft_eq_find, hfind, ht]
        simp [truthy]
  · intro x rest hfind
    simp only [gitlabGetLatestRelease, firstNonDraft_eq_find, hfind]
    simp [truthy]
  · intro x r rest hfind ht
    simp only [gitlabGetLatestRelease, firstNonDraft_eq_find, hfind, ht]
    simp [truthy]
  · intro x rest
    simp [cnbGetLatestRelease, truthy]

/-- Witness for C7 amended at concrete lists: GitLab picks the truthy
non-draft `v2` entry past a draft entry, and CNB returns the draft head
entry unconditionally. -/
theorem C7_release_list_selection_witness :
    ([JVal.jobj [("draft", .jbool true), ("tag_name", .jstr "v1")],
      JVal.jobj [("tag_name", .jstr "v2")]].find?
        (fun e => !truthy (jgetD e "draft" (.jbool false))) =
      some (.jobj [("tag_name", .jstr "v2")])) ∧
    truthy (.jobj [("tag_name", .jstr "v2")]) = true ∧
    gitlabGetLatestRelease (fun _ => none) "b"
      (some (.jarr [.jobj [("draft", .jbool true), ("tag_name", .jstr "v1")],
        .jobj [("tag_name", .jstr "v2")]])) "o/r" =
      some (gitlabReleaseFrom (fun _ => none) "b" "o/r"
        (.jobj [("tag_name", .jstr "v2")])) ∧
    cnbGetLatestRelease (fun _ => none)
      (some (.jarr [.jobj [("draft", .jbool true), ("tag_name", .jstr "v1")],
        .jobj [("tag_name", .jstr "v2")]])) "o/r" =
      some (cnbReleaseFrom (fun _ => none) "o/r"
        (.jobj [("draft", .jbool true), ("tag_name", .jstr "v1")])) :=
  ⟨rfl, by decide,
   (C7_release_list_selection (fun _ => none) "b" "o/r").1
     [.jobj [("draft", .jbool true), ("tag_name", .jstr "v1")],
      .jobj [("tag_name", .jstr "v2")]]
     (.jobj [("tag_name", .jstr "v2")]) rfl (by decide),
   (C7_release_list_selection (fun _ => none) "b" "o/r").2.2.2
     (.jobj [("draft", .jbool true), ("tag_name", .jstr "v1")])
     [.jobj [("tag_name", .jstr "v2")]]⟩

/-! ### Single-entry cycle lemmas -/

theorem check_and_push_single_skip (fp : Bool) (providers groups users : List String)
    (fetchC : RepoWatchConfig → Option CommitInfo)
    (fetchR : RepoWatchConfig → Option ReleaseInfo)
    (deliver : String → String → Bool) (cfg : RepoWatchConfig) (c : UpdateCache)
    (hp : providers.contains (strLower cfg.provider) = false) :
    check_and_push fp providers fetchC fetchR groups users deliver [cfg] c =
      { cache := c, trace := [], count := 0 } := by
  simp only [check_and_push, runChecks]
  rw [hp]
  rfl

theorem check_and_push_single_run (fp : Bool) (providers groups users : List String)
    (fetchC : RepoWatchConfig → Option CommitInfo)
    (fetchR : RepoWatchConfig → Option ReleaseInfo)
    (deliver : String → String → Bool) (cfg : RepoWatchConfig) (c : UpdateCache)
    (hp : providers.contains (strLower cfg.provider) = true)
    (c' : UpdateCache) (upd : Option UpdateEntry) (evs : List Event)
    (hstep : checkOne fp fetchC fetchR c cfg = (c', upd, evs)) :
    check_and_push fp providers fetchC fetchR groups users deliver [cfg] c =
      { cache := c'
        trace := evs ++ (match upd with
          | some u => sendPush groups users deliver (renderUpdate u)
          | none => [])
        count := match upd with | some _ => 1 | none => 0 } := by
  simp only [check_and_push, runChecks, hp, if_true, hstep]
  cases upd with
  | some u => simp
  | none => simp

/-- C1: for a watch entry whose cached sha/tag exists and differs from the
fetched value, one check cycle performs exactly one cache write, counts
exactly one update, and its trace is that single write followed only by
the delivery attempts of the one rendered message — so the cache holds the
new value no matter what the delivery outcomes are (the resulting cache
does not mention `deliver` at all).  Stated for a commits entry and for a
releases entry. -/
theorem C1_changed_overwrites_then_notifies (fp : Bool)
    (providers groups users : List String)
    (fetchC : RepoWatchConfig → Option CommitInfo)
    (fetchR : RepoWatchConfig → Option ReleaseInfo)
    (deliver : String → String → Bool) (cfg : RepoWatchConfig) (c : UpdateCache) :
    (∀ (ci : CommitInfo) (s : String),
      providers.contains (strLower cfg.provider) = true →
      cfg.watch_type = "commits" →
      fetchC cfg = some ci →
      get_cached_commit_sha c cfg.provider cfg.repo ci.branch = some (.jstr s) →
      s ≠ ci.sha →
      check_and_push fp providers fetchC fetchR groups users deliver [cfg] c =
        { cache := set_cached_commit_sha c cfg.provider cfg.repo ci.branch ci.sha
          trace := Event.write (getCommitKey cfg.provider cfg.repo ci.branch) ci.sha ::
            sendPush groups users deliver (renderUpdate (.commit ci cfg.note))
          count := 1 } ∧
      get_cached_commit_sha
        (check_and_push fp providers fetchC fetchR groups users deliver [cfg] c).cache
        cfg.provider cfg.repo ci.branch = some (.jstr ci.sha) ∧
      (∀ e ∈ sendPush groups users deliver (renderUpdate (.commit ci cfg.note)),
        e.isWrite = false)) ∧
    (∀ (ri : ReleaseInfo) (t : String),
      providers.contains (strLower cfg.provider) = true →
      cfg.watch_type ≠ "commits" →
      fetchR cfg = some ri →
      get_cached_release_tag c cfg.provider cfg.repo = some (.jstr t) →
      t ≠ ri.tag →
      check_and_push fp providers fetchC fetchR groups users deliver [cfg] c =
        { cache := set_cached_release_tag c cfg.provider cfg.repo ri.tag
          trace := Event.write (getReleaseKey cfg.provider cfg.repo) ri.tag ::
            sendPush groups users deliver (renderUpdate (.release ri cfg.note))
          count := 1 } ∧
      get_cached_release_tag
        (check_and_push fp providers fetchC fetchR groups users deliver [cfg] c).cache
        cfg.provider cfg.repo = some (.jstr ri.tag) ∧
      (∀ e ∈ sendPush groups users deliver (renderUpdate (.release ri cfg.note)),
        e.isWrite = false)) := by
  constructor
  · intro ci s hp hwt hfc hcache hs
    have hjeq : jEqStr (some (JVal.jstr s)) ci.sha = false := by
      simp only [jEqStr, beq_eq_false_iff_ne, ne_eq]
      exact fun hh => hs hh.symm
    have hfirst := is_first_false_of_get_commit c cfg.provider cfg.repo ci.branch _ hcache
    have hres : check_commits fp c cfg (some ci) =
        (set_cached_commit_sha c cfg.provider cfg.repo ci.branch ci.sha, some ci,
          [Event.write (getCommitKey cfg.provider cfg.repo ci.branch) ci.sha]) := by
      simp only [check_commits, hcache, hjeq, Bool.false_eq_true, if_false, hfirst,
        Bool.false_and, if_false]
    have hco : checkOne fp fetchC fetchR c cfg =
        (set_cached_commit_sha c cfg.provider cfg.repo ci.branch ci.sha,
          some (.commit ci cfg.note),
          [Event.write (getCommitKey cfg.provider cfg.repo ci.branch) ci.sha]) := by
      simp only [checkOne]
      rw [if_pos hwt, hfc, hres]
      rfl
    have hcycle := check_and_push_single_run fp providers groups users fetchC fetchR
      deliver cfg c hp _ _ _ hco
    refine ⟨?_, ?_, sendPush_no_write groups users deliver _⟩
    · rw [hcycle]
      simp
    · rw [hcycle]
      exact get_cached_commit_sha_set c cfg.provider cfg.repo ci.branch ci.sha
        (obj_of_get_commit c cfg.provider cfg.repo ci.branch _ hcache)
  · intro ri t hp hwt hfr hcache ht
    have hjeq : jEqStr (some (JVal.jstr t)) ri.tag = false := by
      simp only [jEqStr, beq_eq_false_iff_ne, ne_eq]
      exact fun hh => ht hh.symm
    have hfirst := is_first_false_of_get_release c cfg.provider cfg.repo _ hcache
    have hres : check_release fp c cfg (some ri) =
        (set_cached_release_tag c cfg.provider cfg.repo ri.tag, some ri,
          [Event.write (getReleaseKey cfg.provider cfg.repo) ri.tag]) := by
      simp only [check_release, hcache, hjeq, Bool.false_eq_true, if_false, hfirst,
        Bool.false_and, if_false]
    have hco : checkOne fp fetchC fetchR c cfg =
        (set_cached_release_tag c cfg.provider cfg.repo ri.tag,
          some (.release ri cfg.note),
          [Event.write (getReleaseKey cfg.provider cfg.repo) ri.tag]) := by
      simp only [checkOne]
      rw [if_neg hwt, hfr, hres]
      rfl
    have hcycle := check_and_push_single_run fp providers groups users fetchC fetchR
      deliver cfg c hp _ _ _ hco
    refine ⟨?_, ?_, sendPush_no_write groups users deliver _⟩
    · rw [hcycle]
      simp
    · rw [hcycle]
      exact get_cached_release_tag_set c cfg.provider cfg.repo ri.tag
        (obj_of_get_release c cfg.provider cfg.repo _ hcache)

/-- Witness for C1: cached sha `abc1234`, fetched sha `def5678`, and a
delivery oracle that fails every attempt — the cache still ends up holding
`def5678`. -/
theorem C1_changed_overwrites_then_notifies_witness :
    (["github"].contains (strLower "github") = true) ∧
    ((RepoWatchConfig.mk "github" "octo/repo" "main" "commits" "").watch_type =
      "commits") ∧
    (get_cached_commit_sha
      (UpdateCache.mk
        [("commit:github:octo/repo:main", .jobj [("sha", .jstr "abc1234")])] [])
      "github" "octo/repo" "main" = some (.jstr "abc1234")) ∧
    (("abc1234" : String) ≠ "def5678") ∧
    get_cached_commit_sha
      (check_and_push false ["github"]
        (fun _ => some (CommitInfo.mk "def5678" "m" "a" "d" "main" "octo/repo"
          "GitHub" none))
        (fun _ => none) ["g1"] [] (fun _ _ => false)
        [RepoWatchConfig.mk "github" "octo/repo" "main" "commits" ""]
        (UpdateCache.mk
          [("commit:github:octo/repo:main", .jobj [("sha", .jstr "abc1234")])] [])).cache
      "github" "octo/repo" "main" = some (.jstr "def5678") :=
  ⟨by decide, rfl, rfl, by decide,
    ((C1_changed_overwrites_then_notifies false ["github"] ["g1"] []
      (fun _ => some (CommitInfo.mk "def5678" "m" "a" "d" "main" "octo/repo"
        "GitHub" none))
      (fun _ => none) (fun _ _ => false)
      (RepoWatchConfig.mk "github" "octo/repo" "main" "commits" "")
      (UpdateCache.mk
        [("commit:github:octo/repo:main", .jobj [("sha", .jstr "abc1234")])] [])).1
      (CommitInfo.mk "def5678" "m" "a" "d" "main" "octo/repo" "GitHub" none)
      "abc1234" (by decide) rfl rfl rfl (by decide)).2.1⟩

theorem check_and_push_single_cache (fp : Bool) (providers groups users : List String)
    (fetchC : RepoWatchConfig → Option CommitInfo)
    (fetchR : RepoWatchConfig → Option ReleaseInfo)
    (deliver : String → String → Bool) (cfg : RepoWatchConfig) (c : UpdateCache)
    (hp : providers.contains (strLower cfg.provider) = true) :
    (check_and_push fp providers fetchC fetchR groups users deliver [cfg] c).cache =
      (checkOne fp fetchC fetchR c cfg).1 := by
  simp only [check_and_push, runChecks]
  rw [hp]
  rfl

/-- C3: running the check cycle twice in succession over one watch entry
with the same fetch oracle yields, on the second run, an empty trace (no
cache write and no delivery attempt), a zero update count, and an
unchanged cache — the unchanged case is idempotent.  `WFCache` restricts
to stores whose values are objects, the only shape the plugin ever
persists. -/
theorem C3_second_run_quiet (fp : Bool) (providers groups users : List String)
    (fetchC : RepoWatchConfig → Option CommitInfo)
    (fetchR : RepoWatchConfig → Option ReleaseInfo)
    (deliver : String → String → Bool) (cfg : RepoWatchConfig) (c : UpdateCache)
    (hwf : WFCache c) :
    check_and_push fp providers fetchC fetchR groups users deliver [cfg]
      (check_and_push fp providers fetchC fetchR groups users deliver [cfg] c).cache =
      { cache := (check_and_push fp providers fetchC fetchR groups users deliver
          [cfg] c).cache
        trace := []
        count := 0 } := by
  by_cases hp : providers.contains (strLower cfg.provider) = true
  · by_cases hwt : cfg.watch_type = "commits"
    · cases hfc : fetchC cfg with
      | none =>
          have hco : checkOne fp fetchC fetchR c cfg = (c, none, []) := by
            simp only [checkOne]
            rw [if_pos hwt, hfc]
            rfl
          have h1 := check_and_push_single_run fp providers groups users fetchC fetchR
            deliver cfg c hp _ _ _ hco
          rw [h1]
          exact check_and_push_single_run fp providers groups users fetchC fetchR
            deliver cfg c hp _ _ _ hco
      | some ci =>
          by_cases hje : jEqStr
              (get_cached_commit_sha c cfg.provider cfg.repo ci.branch) ci.sha = true
          · have hres : check_commits fp c cfg (some ci) = (c, none, []) := by
              simp only [check_commits]
              rw [if_pos hje]
            have hco : checkOne fp fetchC fetchR c cfg = (c, none, []) := by
              simp only [checkOne]
              rw [if_pos hwt, hfc, hres]
              rfl
            have h1 := check_and_push_single_run fp providers groups users fetchC
              fetchR deliver cfg c hp _ _ _ hco
            rw [h1]
            exact check_and_push_single_run fp providers groups users fetchC fetchR
              deliver cfg c hp _ _ _ hco
          · have hjef : jEqStr
                (get_cached_commit_sha c cfg.provider cfg.repo ci.branch) ci.sha =
                false := by
              cases hb : jEqStr
                  (get_cached_commit_sha c cfg.provider cfg.repo ci.branch) ci.sha
              · rfl
              · exact absurd hb hje
            have hc1 : (check_and_push fp providers fetchC fetchR groups users deliver
                [cfg] c).cache =
                set_cached_commit_sha c cfg.provider cfg.repo ci.branch ci.sha := by
              rw [check_and_push_single_cache fp providers groups users fetchC fetchR
                deliver cfg c hp]
              simp only [checkOne]
              rw [if_pos hwt, hfc]
              show (check_commits fp c cfg (some ci)).1 = _
              simp only [check_commits]
              rw [hjef]
              simp only [Bool.false_eq_true, if_false]
              split <;> rfl
            have hget2 : get_cached_commit_sha
                (set_cached_commit_sha c cfg.provider cfg.repo ci.branch ci.sha)
                cfg.provider cfg.repo ci.branch = some (.jstr ci.sha) :=
              get_cached_commit_sha_set c cfg.provider cfg.repo ci.branch ci.sha
                (fun v hv => hwf _ v hv)
            have hres2 : check_commits fp
                (set_cached_commit_sha c cfg.provider cfg.repo ci.branch ci.sha) cfg
                (some ci) =
                (set_cached_commit_sha c cfg.provider cfg.repo ci.branch ci.sha,
                  none, []) := by
              simp only [check_commits, hget2]
              rw [if_pos (by simp [jEqStr])]
            have hco2 : checkOne fp fetchC fetchR
                (set_cached_commit_sha c cfg.provider cfg.repo ci.branch ci.sha) cfg =
                (set_cached_commit_sha c cfg.provider cfg.repo ci.branch ci.sha,
                  none, []) := by
              simp only [checkOne]
              rw [if_pos hwt, hfc, hres2]
              rfl
            rw [hc1]
            exact check_and_push_single_run fp providers groups users fetchC fetchR
              deliver cfg _ hp _ _ _ hco2
    · cases hfr : fetchR cfg with
      | none =>
          have hco : checkOne fp fetchC fetchR c cfg = (c, none, []) := by
            simp only [checkOne]
            rw [if_neg hwt, hfr]
            rfl
          have h1 := check_and_push_single_run fp providers groups users fetchC fetchR
            deliver cfg c hp _ _ _ hco
          rw [h1]
          exact check_and_push_single_run fp providers groups users fetchC fetchR
            deliver cfg c hp _ _ _ hco
      | some ri =>
          by_cases hje : jEqStr
              (get_cached_release_tag c cfg.provider cfg.repo) ri.tag = true
          · have hres : check_release fp c cfg (some ri) = (c, none, []) := by
              simp only [check_release]
              rw [if_pos hje]
            have hco : checkOne fp fetchC fetchR c cfg = (c, none, []) := by
              simp only [checkOne]
              rw [if_neg hwt, hfr, hres]
              rfl
            have h1 := check_and_push_single_run fp providers groups users fetchC
              fetchR deliver cfg c hp _ _ _ hco
            rw [h1]
            exact check_and_push_single_run fp providers groups users fetchC fetchR
              deliver cfg c hp _ _ _ hco
          · have hjef : jEqStr
                (get_cached_release_tag c cfg.provider cfg.repo) ri.tag = false := by
              cases hb : jEqStr (get_cached_release_tag c cfg.provider cfg.repo) ri.tag
              · rfl
              · exact absurd hb hje
            have hc1 : (check_and_push fp providers fetchC fetchR groups users deliver
                [cfg] c).cache =
                set_cached_release_tag c cfg.provider cfg.repo ri.tag := by
              rw [check_and_push_single_cache fp providers groups users fetchC fetchR
                deliver cfg c hp]
              simp only [checkOne]
              rw [if_neg hwt, hfr]
              show (check_release fp c cfg (some ri)).1 = _
              simp only [check_release]
              rw [hjef]
              simp only [Bool.false_eq_true, if_false]
              split <;> rfl
            have hget2 : get_cached_release_tag
                (set_cached_release_tag c cfg.provider cfg.repo ri.tag)
                cfg.provider cfg.repo = some (.jstr ri.tag) :=
              get_cached_release_tag_set c cfg.provider cfg.repo ri.tag
                (fun v hv => hwf _ v hv)
            have hres2 : check_release fp
                (set_cached_release_tag c cfg.provider cfg.repo ri.tag) cfg
                (some ri) =
                (set_cached_release_tag c cfg.provider cfg.repo ri.tag, none, []) := by
              simp only [check_release, hget2]
              rw [if_pos (by simp [jEqStr])]
            have hco2 : checkOne fp fetchC fetchR
                (set_cached_release_tag c cfg.provider cfg.repo ri.tag) cfg =
                (set_cached_release_tag c cfg.provider cfg.repo ri.tag, none, []) := by
              simp only [checkOne]
              rw [if_neg hwt, hfr, hres2]
              rfl
            rw [hc1]
            exact check_and_push_single_run fp providers groups users fetchC fetchR
              deliver cfg _ hp _ _ _ hco2
  · have hpf : providers.contains (strLower cfg.provider) = false := by
      cases hb : providers.contains (strLower cfg.provider)
      · rfl
      · exact absurd hb hp
    have h1 := check_and_push_single_skip fp providers groups users fetchC fetchR
      deliver cfg c hpf
    rw [h1]
    exact check_and_push_single_skip fp providers groups users fetchC fetchR
      deliver cfg c hpf

/-- Witness for C3: an initially empty (trivially well-formed) store and a
fixed fetch oracle; the second cycle is silent. -/
theorem C3_second_run_quiet_witness :
    WFCache (UpdateCache.mk [] []) ∧
    check_and_push false ["github"]
      (fun _ => some (CommitInfo.mk "abc1234" "m" "a" "d" "main" "octo/repo"
        "GitHub" none))
      (fun _ => none) ["g1"] [] (fun _ _ => true)
      [RepoWatchConfig.mk "github" "octo/repo" "main" "commits" ""]
      (check_and_push false ["github"]
        (fun _ => some (CommitInfo.mk "abc1234" "m" "a" "d" "main" "octo/repo"
          "GitHub" none))
        (fun _ => none) ["g1"] [] (fun _ _ => true)
        [RepoWatchConfig.mk "github" "octo/repo" "main" "commits" ""]
        (UpdateCache.mk [] [])).cache =
      { cache := (check_and_push false ["github"]
          (fun _ => some (CommitInfo.mk "abc1234" "m" "a" "d" "main" "octo/repo"
            "GitHub" none))
          (fun _ => none) ["g1"] [] (fun _ _ => true)
          [RepoWatchConfig.mk "github" "octo/repo" "main" "commits" ""]
          (UpdateCache.mk [] [])).cache
        trace := []
        count := 0 } :=
  ⟨by intro k v hv; simp [dictGet] at hv,
   C3_second_run_quiet false ["github"] ["g1"] []
     (fun _ => some (CommitInfo.mk "abc1234" "m" "a" "d" "main" "octo/repo"
       "GitHub" none))
     (fun _ => none) (fun _ _ => true)
     (RepoWatchConfig.mk "github" "octo/repo" "main" "commits" "")
     (UpdateCache.mk [] [])
     (by intro k v hv; simp [dictGet] at hv)⟩
